import Mathlib

/-!
Verification of the replicated in-memory file system and frame algebra of a
research OS kernel, shallowly embedded from the Rust sources.

Conventions of the embedding:
* machine integers (`u64`, `usize`) become `Nat`; `i64` becomes `Int`, with
  explicit two's-complement casts where the source casts;
* `Vec<u8>` buffers become `List Nat`;
* `HashMap` becomes an association list (only `get`/`insert`/`remove` are used
  by the code, so iteration order never matters);
* a Rust panic (`unwrap` failure, `unimplemented!`, `unreachable!`, slice index
  out of bounds) is modelled by `Option.none`;
* heap allocation is modelled as always succeeding (`try_reserve` /
  `try_alloc_buffer` failure is an out-of-memory condition outside the model).
-/

set_option linter.unusedVariables false

/-- Key lookup in an association list (model of `HashMap::get`). -/
def alistFind {α β : Type} [DecidableEq α] (k : α) : List (α × β) → Option β
  | [] => none
  | (k', v) :: rest => if k = k' then some v else alistFind k rest

/-- Key removal in an association list (model of `HashMap::remove`). -/
def alistErase {α β : Type} [DecidableEq α] (k : α) : List (α × β) → List (α × β)
  | [] => []
  | (k', v) :: rest => if k = k' then alistErase k rest else (k', v) :: alistErase k rest

/-- Key insertion/replacement in an association list (model of `HashMap::insert`). -/
def alistInsert {α β : Type} [DecidableEq α] (k : α) (v : β) (l : List (α × β)) :
    List (α × β) :=
  (k, v) :: alistErase k l

/-- `BASE_PAGE_SIZE` (x86 4 KiB base page). -/
def BASE_PAGE_SIZE : Nat := 4096

/-- `LARGE_PAGE_SIZE` (x86 2 MiB large page). -/
def LARGE_PAGE_SIZE : Nat := 2097152

/-- `as usize` cast of an `i64` value (two's complement). -/
def intToUsize (i : Int) : Nat := (i % (2 : Int) ^ 64).toNat

/-- `fn ceil(bytes, buffer_size)` from `fs/file.rs`: buffers needed for `bytes`. -/
def ceil (bytes buffer_size : Nat) : Nat :=
  let val := bytes / buffer_size
  if bytes > val * buffer_size then val + 1 else val

/-- `fn offset_to_buffernum(offset, buffer_size)` from `fs/file.rs`. -/
def offset_to_buffernum (offset buffer_size : Nat) : Nat := offset / buffer_size

/-- `Vec::resize(n, 0)`: truncate to `n` or extend with zeros up to `n`. -/
def resizeZero (l : List Nat) (n : Nat) : List Nat :=
  if n ≤ l.length then l.take n else l ++ List.replicate (n - l.length) 0

/-- Apply `f` to the last element of a list (`last_mut().unwrap()` update;
call sites guarantee the list is non-empty). -/
def updateLast (f : List Nat → List Nat) : List (List Nat) → List (List Nat)
  | [] => []
  | [b] => [f b]
  | b :: rest => b :: updateLast f rest

/-- `File` from `fs/file.rs`: a list of page buffers (`mcache`) plus the modes
the file was created with.  Each buffer holds at most `BASE_PAGE_SIZE` bytes. -/
structure File where
  mcache : List (List Nat)
  modes : Nat
  deriving DecidableEq, Repr

/-- `File::new(modes)`: empty buffer list (capacity reservation has no
observable effect; allocation is modelled as succeeding). -/
def File.new (modes : Nat) : File := { mcache := [], modes := modes }

/-- The summation loop inside `File::get_size`: adds up buffer lengths,
stopping at the first empty buffer. -/
def sumUntilEmptyBuffer : List (List Nat) → Nat
  | [] => 0
  | b :: rest => if b.length = 0 then 0 else b.length + sumUntilEmptyBuffer rest

/-- `File::get_size`. -/
def File.get_size (f : File) : Nat :=
  match f.mcache with
  | [] => 0
  | [b] => b.length
  | l => sumUntilEmptyBuffer l

/-- `File::increase_file_size(curr_file_len, new_len)` (returns the new file;
the `bool` result is `true` because allocation is modelled as succeeding). -/
def File.increase_file_size (f : File) (curr_file_len new_len : Nat) : File :=
  let free_in_last_buffer : Nat :=
    match f.mcache.getLast? with
    | some b => BASE_PAGE_SIZE - b.length
    | none => 0
  let add_new := new_len - curr_file_len
  if add_new ≤ free_in_last_buffer then
    -- fill up the existing last buffer; no new buffer needed
    { f with mcache := updateLast (fun b => resizeZero b (b.length + add_new)) f.mcache }
  else
    let m1 :=
      if f.mcache.length > 0 then
        updateLast (fun b => resizeZero b BASE_PAGE_SIZE) f.mcache
      else f.mcache
    let remaining := add_new - free_in_last_buffer
    let new_buffers := ceil remaining BASE_PAGE_SIZE
    let vec := List.replicate new_buffers (List.replicate BASE_PAGE_SIZE 0)
    let vec2 :=
      if new_len % BASE_PAGE_SIZE ≠ 0 then
        let sure_bytes_to_write := (new_buffers - 1) * BASE_PAGE_SIZE
        let bytes_in_last_buffer :=
          new_len - (File.get_size { f with mcache := m1 } + sure_bytes_to_write)
        updateLast (fun b => resizeZero b bytes_in_last_buffer) vec
      else vec
    { f with mcache := m1 ++ vec2 }

/-- `File::decrease_file_size(new_len)`. -/
def File.decrease_file_size (f : File) (new_len : Nat) : File :=
  let new_last_buffer := ceil new_len BASE_PAGE_SIZE
  let m1 := f.mcache.take new_last_buffer
  if m1.length > 0 then
    let extra := new_last_buffer * BASE_PAGE_SIZE - new_len
    let keep := if extra = 0 then BASE_PAGE_SIZE else BASE_PAGE_SIZE - extra
    { f with mcache := updateLast (fun b => resizeZero b keep) m1 }
  else
    { f with mcache := m1 }

/-- `File::resize_file(new_len)`. -/
def File.resize_file (f : File) (new_len : Nat) : File :=
  let curr_file_len := f.get_size
  if curr_file_len = new_len then f
  else if new_len > curr_file_len then f.increase_file_size curr_file_len new_len
  else f.decrease_file_size new_len

/-- The copy loop of `File::read_file`, over the buffers from `buffer_num`
onwards.  Returns the bytes copied, or `none` when the loop would panic
(buffer index out of bounds, or `offset_in_buffer` beyond the buffer). -/
def readLoop : List (List Nat) → Nat → Nat → Option (List Nat)
  | bufs, offInBuf, need =>
    match bufs with
    | [] => if need = 0 then some [] else none
    | b :: rest =>
      if need = 0 then some []
      else if b.length < offInBuf then none
      else
        let useful := b.length - offInBuf
        let tk := min need useful
        match readLoop rest 0 (need - tk) with
        | none => none
        | some l => some ((b.drop offInBuf).take tk ++ l)

/-- `File::read_file(user_slice, start_offset, end_offset)`.  Returns the
updated destination slice together with the byte count, or `none` on panic
(including a destination slice too short for the copy).  The file itself is
taken by shared reference in the source and is never modified, and the loop
performs no allocation; accordingly the model returns no new `File`. -/
def File.read_file (f : File) (user_slice : List Nat) (start_offset end_offset : Nat) :
    Option (List Nat × Nat) :=
  let buffer_num := offset_to_buffernum start_offset BASE_PAGE_SIZE
  let offset_in_buffer := start_offset - buffer_num * BASE_PAGE_SIZE
  let len := end_offset - start_offset
  match readLoop (f.mcache.drop buffer_num) offset_in_buffer len with
  | none => none
  | some copied =>
    if user_slice.length < copied.length then none
    else some (copied ++ user_slice.drop copied.length, copied.length)

/-- The copy loop of `File::write_file`, over the buffers from `buffer_num`
onwards: each buffer is appended with bytes from `src` up to
`BASE_PAGE_SIZE`, until `src` is exhausted.  `none` models the panic when
the buffers run out while bytes remain. -/
def writeLoop : List (List Nat) → List Nat → Option (List (List Nat))
  | [], src => if src.length = 0 then some [] else none
  | b :: rest, src =>
    if src.length = 0 then some (b :: rest)
    else
      let free_in_buffer := BASE_PAGE_SIZE - b.length
      let tk := min free_in_buffer src.length
      match writeLoop rest (src.drop tk) with
      | none => none
      | some r => some ((b ++ src.take tk) :: r)

/-- `File::write_file(user_slice, len, start_offset)`.  Returns the new file
and the byte count written, or `none` on panic (`len` exceeding the source
slice).  Allocation is modelled as succeeding, so the `OutOfMemory` error
path does not arise. -/
def File.write_file (f : File) (user_slice : List Nat) (len : Nat) (start_offset : Int) :
    Option (File × Nat) :=
  if len > user_slice.length then none
  else
    let f1 := if start_offset ≠ -1 then f.resize_file (intToUsize start_offset) else f
    let free_in_last_buffer : Nat :=
      match f1.mcache.getLast? with
      | some b => BASE_PAGE_SIZE - b.length
      | none => 0
    let m2 :=
      if len > free_in_last_buffer then
        let add_empty_buffer := ceil (len - free_in_last_buffer) BASE_PAGE_SIZE
        f1.mcache ++ List.replicate add_empty_buffer []
      else f1.mcache
    let offset := File.get_size { f1 with mcache := m2 }
    let buffer_num := offset_to_buffernum offset BASE_PAGE_SIZE
    match writeLoop (m2.drop buffer_num) (user_slice.take len) with
    | none => none
    | some post => some ({ f1 with mcache := m2.take buffer_num ++ post }, len)

/-- The file's logical content: the buffers flattened into a flat byte list. -/
def File.contents (f : File) : List Nat := f.mcache.flatten

example : (File.new 448).get_size = 0 := by decide

example :
    (File.new 448).write_file [5, 6, 7] 3 (-1) =
      some ({ mcache := [[5, 6, 7]], modes := 448 }, 3) := by decide

/-! ## Frames (`memory/mod.rs`) -/

/-- `Frame` from `memory/mod.rs`: `(base, size, affinity)`. -/
structure Frame where
  base : Nat
  size : Nat
  affinity : Nat
  deriving DecidableEq, Repr

/-- `Frame::empty()`. -/
def Frame.empty : Frame := { base := 0, size := 0, affinity := 0 }

/-- `Frame::new(base, size, node)`: asserts both alignments; a failed assert
is a panic, modelled by `none`. -/
def Frame.new (base size affinity : Nat) : Option Frame :=
  if base % BASE_PAGE_SIZE = 0 ∧ size % BASE_PAGE_SIZE = 0 then
    some { base := base, size := size, affinity := affinity }
  else none

/-- `Frame::split_at(size)`: asserts the split size is page-aligned, and
builds the two halves through `Frame::new` (whose asserts may panic). -/
def Frame.split_at (f : Frame) (sz : Nat) : Option (Frame × Frame) :=
  if sz % BASE_PAGE_SIZE = 0 then
    if sz ≥ f.size then some (f, Frame.empty)
    else
      match Frame.new f.base sz f.affinity,
            Frame.new (f.base + sz) (f.size - sz) f.affinity with
      | some low, some high => some (low, high)
      | _, _ => none
  else none

/-- The unfolding of `IntoBasePageIter::next` until `None`, collecting the
yielded frames.  The fuel argument only bounds the recursion; one page is
consumed per step, so `size / BASE_PAGE_SIZE + 1` steps always suffice. -/
def basePagesLoop : Nat → Frame → Option (List Frame)
  | 0, _ => none
  | fuel + 1, f =>
    if BASE_PAGE_SIZE < f.size then
      match f.split_at BASE_PAGE_SIZE with
      | none => none
      | some (low, high) => (basePagesLoop fuel high).map (fun l => low :: l)
    else if f.size = BASE_PAGE_SIZE then some [f]
    else some []

/-- `frame.into_base_pages()` (i.e. `IntoIterator for Frame`), collected into
the list of yielded base-page frames; `none` when a step panics. -/
def Frame.into_base_pages (f : Frame) : Option (List Frame) :=
  basePagesLoop (f.size / BASE_PAGE_SIZE + 1) f

example :
    Frame.into_base_pages { base := 8192, size := 12288, affinity := 3 } =
      some [{ base := 8192, size := 4096, affinity := 3 },
            { base := 12288, size := 4096, affinity := 3 },
            { base := 16384, size := 4096, affinity := 3 }] := by decide

/-! ## File descriptors and the file-system registry

`mlnrfs/fd.rs` and `fs/mod.rs` are not part of the provided sources (only
their callers in `mlnr.rs` and `mlnrfs/mod.rs` are), so `FileFlags`, `Fd`,
`FileDesc`, `NodeType`, `FileInfo` and `MemNode` below are modelled from the
spec, shaped to fit their call sites. -/

/-- Modelled from the spec: the missing `kpi::io::FileFlags`.  The spec lists
the flag set `{READ, WRITE, APPEND, CREATE, TRUNCATE, ...}`; the bit-level
`u64` encoding is elided and the flags are carried as booleans, matching the
predicates `is_read`/`is_write`/`is_append`/`is_create`/`is_truncate` that
the dispatch code uses. -/
structure FileFlags where
  read : Bool
  write : Bool
  append : Bool
  create : Bool
  truncate : Bool
  deriving DecidableEq, Repr

def FileFlags.is_read (f : FileFlags) : Bool := f.read
def FileFlags.is_write (f : FileFlags) : Bool := f.write
def FileFlags.is_append (f : FileFlags) : Bool := f.append
def FileFlags.is_create (f : FileFlags) : Bool := f.create
def FileFlags.is_truncate (f : FileFlags) : Bool := f.truncate

instance : Inhabited FileFlags :=
  ⟨{ read := false, write := false, append := false, create := false, truncate := false }⟩

/-- Modelled from the spec: the missing `mlnrfs/fd.rs` `Fd` slot, storing
`(mnode, flags, offset)`.  The mnode is a plain number: the caller in
`mlnr.rs` passes `*mnode.unwrap()` (a dereferenced `u64`), so the slot holds
no shared reference to the path table's `Arc`. -/
structure Fd where
  mnode : Nat
  flags : FileFlags
  offset : Nat
  deriving DecidableEq, Repr

/-- Modelled from the spec: `Fd::default()` (derived `Default`). -/
def Fd.mkDefault : Fd := { mnode := 0, flags := default, offset := 0 }

instance : Inhabited Fd := ⟨Fd.mkDefault⟩

/-- `MAX_FILES_PER_PROCESS`. -/
def MAX_FILES_PER_PROCESS : Nat := 4096

/-- Modelled from the spec: the missing `mlnrfs/fd.rs` `FileDesc`, a
fixed-capacity slotted array of length `MAX_FILES_PER_PROCESS`. -/
structure FileDesc where
  fds : List (Option Fd)
  deriving DecidableEq, Repr

/-- Modelled from the spec: `FileDesc::default()`, all slots empty. -/
def FileDesc.mkDefault : FileDesc := { fds := List.replicate MAX_FILES_PER_PROCESS none }

instance : Inhabited FileDesc := ⟨FileDesc.mkDefault⟩

/-- Modelled from the spec: `allocate_fd` hands out the lowest free index,
placing a default `Fd` in the slot; `none` when the table is full. -/
def FileDesc.allocate_fd (d : FileDesc) : Option (Nat × FileDesc) :=
  match d.fds.findIdx? Option.isNone with
  | some fid => some (fid, { fds := d.fds.set fid (some Fd.mkDefault) })
  | none => none

/-- Modelled from the spec: `deallocate_fd` empties the slot. -/
def FileDesc.deallocate_fd (d : FileDesc) (fd : Nat) : FileDesc :=
  { fds := d.fds.set fd none }

/-- Modelled from the spec: `get_fd` returns the slot's `Fd`; an empty or
out-of-range slot is a panic at the call sites in `mlnr.rs`. -/
def FileDesc.get_fd (d : FileDesc) (index : Nat) : Option Fd :=
  (d.fds.get? index).bind id

/-- `fd.update_fd(mnode, flags)`: bind the slot to an mnode and flag set
(offset untouched). -/
def FileDesc.update_fd (d : FileDesc) (index : Nat) (mnode : Nat) (flags : FileFlags) :
    FileDesc :=
  match d.get_fd index with
  | some e => { fds := d.fds.set index (some { e with mnode := mnode, flags := flags }) }
  | none => d

/-- `fd.update_offset(new_offset)` on a slot. -/
def FileDesc.update_offset (d : FileDesc) (index : Nat) (new_offset : Nat) : FileDesc :=
  match d.get_fd index with
  | some e => { fds := d.fds.set index (some { e with offset := new_offset }) }
  | none => d

/-- `NodeType` (`fs` module, modelled from the spec: `kind ∈ {Directory, File}`,
with `ftype` 1 for a directory and 2 for a file). -/
inductive NodeType where
  | Directory
  | File
  deriving DecidableEq, Repr

/-- `ftype` integer of a `NodeType` (`1 = Directory, 2 = File`). -/
def NodeType.toFtype : NodeType → Nat
  | .Directory => 1
  | .File => 2

/-- `kpi::io::FileInfo` (modelled from the spec: `{fsize, ftype}`). -/
structure FileInfo where
  fsize : Nat
  ftype : Nat
  deriving DecidableEq, Repr

/-- Rust's `Result<T, E>`. -/
inductive RResult (α ε : Type) where
  | ok (v : α)
  | error (e : ε)
  deriving DecidableEq, Repr

/-- `FileSystemError` from the `fs` module (error taxonomy of the spec). -/
inductive FileSystemError where
  | InvalidFile
  | AlreadyPresent
  | PermissionError
  | OutOfMemory
  deriving DecidableEq, Repr

/-- Modelled from the spec: the missing `fs/mod.rs` `MemNode`, carrying
`(mnode, name, modes, kind, body)`; a directory has no file body. -/
structure MemNode where
  mnode_num : Nat
  name : String
  modes : Nat
  node_type : NodeType
  file : Option File
  deriving DecidableEq, Repr

/-- Modelled from the spec: `MemNode::new` builds a `File` body for a file
node and no body for a directory (allocation modelled as succeeding). -/
def MemNode.new (mnode_num : Nat) (name : String) (modes : Nat) (t : NodeType) : MemNode :=
  { mnode_num := mnode_num, name := name, modes := modes, node_type := t,
    file := match t with
            | .Directory => none
            | .File => some (File.new modes) }

/-- `mnode.get_mnode_type()`. -/
def MemNode.get_mnode_type (m : MemNode) : NodeType := m.node_type

/-- `mnode.get_file_size()` (file nodes only; a missing body reads as 0). -/
def MemNode.get_file_size (m : MemNode) : Nat :=
  match m.file with
  | some f => f.get_size
  | none => 0

/-- Modelled from the spec: `MemNode::write` forwards to the file body
(`write_file(buffer, buffer.len(), offset)`); `none` propagates a panic. -/
def MemNode.write (m : MemNode) (buffer : List Nat) (offset : Nat) :
    Option (MemNode × RResult Nat FileSystemError) :=
  match m.file with
  | none => some (m, .error .InvalidFile)
  | some f =>
    match f.write_file buffer buffer.length (Int.ofNat offset) with
    | none => none
    | some (f', n) => some ({ m with file := some f' }, .ok n)

/-- `Arc<Mnode>` as stored in the `files` map: the mnode number together with
the number of `Arc` clones currently held *outside* the map, so that
`Arc::strong_count` observed after removing the entry is `1 + extra`.  The
dispatch code only ever dereferences the `Arc` returned by `lookup` (the
clone is dropped within the operation), so no operation below changes
`extra`. -/
structure ArcMnode where
  val : Nat
  extra : Nat
  deriving DecidableEq, Repr

/-- `MlnrFS` from `mlnrfs/mod.rs`. -/
structure MlnrFS where
  mnodes : List (Nat × MemNode)
  files : List (String × ArcMnode)
  root : String × Nat
  nextmemnode : Nat
  deriving DecidableEq, Repr

/-- `MlnrFS::default()`: root directory `"/"` with mnode 1; counter at 2. -/
def MlnrFS.default : MlnrFS :=
  { mnodes := [(1, MemNode.new 1 "/" 448 .Directory)],
    files := [("/", { val := 1, extra := 0 })],
    root := ("/", 1),
    nextmemnode := 2 }

/-- `MlnrFS::lookup(pathname)` (the returned `Arc` clone is dereferenced and
dropped by every caller, so only the mnode number is returned). -/
def MlnrFS.lookup (fs : MlnrFS) (pathname : String) : Option Nat :=
  (alistFind pathname fs.files).map (·.val)

/-- `MlnrFS::create(pathname, modes)`. -/
def MlnrFS.create (fs : MlnrFS) (pathname : String) (modes : Nat) :
    MlnrFS × RResult Nat FileSystemError :=
  match alistFind pathname fs.files with
  | some _ => (fs, .error .AlreadyPresent)
  | none =>
    let mnode_num := fs.nextmemnode
    let memnode := MemNode.new mnode_num pathname modes .File
    ({ fs with
        nextmemnode := fs.nextmemnode + 1,
        files := alistInsert pathname { val := mnode_num, extra := 0 } fs.files,
        mnodes := alistInsert mnode_num memnode fs.mnodes },
      .ok mnode_num)

/-- `MlnrFS::write(mnode_num, buffer, offset)`. -/
def MlnrFS.write (fs : MlnrFS) (mnode_num : Nat) (buffer : List Nat) (offset : Nat) :
    Option (MlnrFS × RResult Nat FileSystemError) :=
  match alistFind mnode_num fs.mnodes with
  | some mem =>
    match mem.write buffer offset with
    | none => none
    | some (mem', r) =>
      some ({ fs with mnodes := alistInsert mnode_num mem' fs.mnodes }, r)
  | none => some (fs, .error .InvalidFile)

/-- `MlnrFS::file_info(mnode)`: the absent-mnode arm is `unreachable!`, a
panic, modelled by `none`. -/
def MlnrFS.file_info (fs : MlnrFS) (mnode : Nat) : Option FileInfo :=
  match alistFind mnode fs.mnodes with
  | some mem =>
    match mem.get_mnode_type with
    | .Directory => some { fsize := 0, ftype := NodeType.Directory.toFtype }
    | .File => some { fsize := mem.get_file_size, ftype := NodeType.File.toFtype }
  | none => none

/-- `MlnrFS::delete(pathname)`: remove the path; if the removed `Arc`'s
strong count is 1 (`1 + extra`), drop the `MemNode`, otherwise re-insert the
path and fail with `PermissionError`. -/
def MlnrFS.delete (fs : MlnrFS) (pathname : String) :
    MlnrFS × RResult Bool FileSystemError :=
  match alistFind pathname fs.files with
  | some mnode =>
    let files' := alistErase pathname fs.files
    match 1 + mnode.extra with
    | 1 =>
      ({ fs with files := files', mnodes := alistErase mnode.val fs.mnodes }, .ok true)
    | _ =>
      ({ fs with files := alistInsert pathname mnode files' }, .error .PermissionError)
  | none => (fs, .error .InvalidFile)

/-! ## The replication dispatcher (`mlnr.rs`) -/

/-- `ProcessError` (only the variant the dispatcher produces). -/
inductive ProcessError where
  | NotEnoughMemory
  deriving DecidableEq, Repr

/-- `KError` (the kinds the dispatcher produces). -/
inductive KError where
  | FileSystem (source : FileSystemError)
  | ProcessErr (source : ProcessError)
  | NotSupported
  | ReplicaNotSet
  deriving DecidableEq, Repr

/-- `Modify`, the write-operation enum.  `FileWrite` carries the shared
payload slice (`Arc<[u8]>`), a length and an `i64` offset. -/
inductive Modify where
  | Increment (tid : Nat)
  | ProcessAdd (pid : Nat)
  | ProcessRemove (pid : Nat)
  | FileOpen (pid : Nat) (filename : String) (flags : FileFlags) (modes : Nat)
  | FileWrite (pid : Nat) (fd : Nat) (payload : List Nat) (len : Nat) (offset : Int)
  | FileClose (pid : Nat) (fd : Nat)
  | FileDelete (pid : Nat) (filename : String)
  | FileRename (pid : Nat) (oldname newname : String)
  deriving DecidableEq, Repr

/-- `Access`, the read-operation enum (`Buffer`, `Len`, `Offset` and
`Filename` are plain numbers at this level). -/
inductive Access where
  | Get
  | FileRead (pid : Nat) (fd : Nat) (buffer : Nat) (len : Nat) (offset : Int)
  | FileInfo (pid : Nat) (filename : Nat) (info : Nat)
  deriving DecidableEq, Repr

/-- `MlnrNodeResult`. -/
inductive MlnrNodeResult where
  | Incremented (v : Nat)
  | ProcessAdded (pid : Nat)
  | FileOpened (fd : Nat)
  | FileAccessed (len : Nat)
  deriving DecidableEq, Repr

/-- `MlnrKernelNode`: the replicated state (counters, per-process fd tables,
file system). -/
structure MlnrKernelNode where
  counters : List Nat
  process_map : List (Nat × FileDesc)
  fs : MlnrFS
  deriving DecidableEq, Repr

/-- `MlnrKernelNode::default()`: 192 zeroed counters, empty process map,
default file system. -/
def MlnrKernelNode.default : MlnrKernelNode :=
  { counters := List.replicate 192 0,
    process_map := [],
    fs := MlnrFS.default }

/-- The dispatcher's response type `Result<MlnrNodeResult, KError>`. -/
abbrev MlnrResponse := RResult MlnrNodeResult KError

/-- `Dispatch::dispatch(op)` from `mlnr.rs`: loads `counters[0]` and answers
`Ok(Incremented(..))` whatever the read operation is; the body performs no
store, so the state is returned unchanged.  `none` models the index panic of
`counters[0]` (impossible for the 192-counter node). -/
def MlnrKernelNode.dispatch (s : MlnrKernelNode) (op : Access) :
    Option (MlnrKernelNode × MlnrResponse) :=
  (s.counters.get? 0).map (fun c => (s, .ok (.Incremented c)))

/-- `Dispatch::dispatch_mut(op)` from `mlnr.rs`.  `none` models a panic:
`unimplemented!` arms, `unwrap` on an absent pid, `get_fd` on an empty slot,
the `unreachable!` arm of `file_info`, and the `unimplemented!` body of
`MlnrFS::truncate` reached on an `O_TRUNC` open of an existing file. -/
def MlnrKernelNode.dispatch_mut (s : MlnrKernelNode) (op : Modify) :
    Option (MlnrKernelNode × MlnrResponse) :=
  match op with
  | .Increment tid =>
    match s.counters.get? tid with
    | none => none
    | some c =>
      some ({ s with counters := s.counters.set tid (c + 1) }, .ok (.Incremented c))
  | .ProcessAdd pid =>
    -- `insert` replaces any existing entry and returns the old one
    let old := alistFind pid s.process_map
    let s' := { s with process_map := alistInsert pid FileDesc.mkDefault s.process_map }
    match old with
    | some _ => some (s', .error (.ProcessErr .NotEnoughMemory))
    | none => some (s', .ok (.ProcessAdded pid))
  | .ProcessRemove _ => none
  | .FileOpen pid filename flags modes =>
    let mnode := s.fs.lookup filename
    if mnode.isNone && !flags.is_create then
      some (s, .error (.FileSystem .PermissionError))
    else
      match alistFind pid s.process_map with
      | none => none
      | some fdesc =>
        match fdesc.allocate_fd with
        | none => some (s, .error .NotSupported)
        | some (fdnum, fdesc1) =>
          match mnode with
          | none =>
            match s.fs.create filename modes with
            | (fs', .ok mnode_num) =>
              let fdesc2 := fdesc1.update_fd fdnum mnode_num flags
              some ({ s with
                        fs := fs'
                        process_map := alistInsert pid fdesc2 s.process_map },
                    .ok (.FileOpened fdnum))
            | (fs', .error e) =>
              let fdesc2 := fdesc1.deallocate_fd fdnum
              some ({ s with
                        fs := fs'
                        process_map := alistInsert pid fdesc2 s.process_map },
                    .error (.FileSystem e))
          | some mnode_num =>
            if flags.is_truncate then none
            else
              let fdesc2 := fdesc1.update_fd fdnum mnode_num flags
              some ({ s with process_map := alistInsert pid fdesc2 s.process_map },
                    .ok (.FileOpened fdnum))
  | .FileWrite pid fd payload len offset =>
    match alistFind pid s.process_map with
    | none => none
    | some fdesc =>
      match fdesc.get_fd fd with
      | none => none
      | some fdEntry =>
        let mnode_num := fdEntry.mnode
        let flags := fdEntry.flags
        if ¬flags.is_write then
          some (s, .error (.FileSystem .PermissionError))
        else
          let curr_offset : Option Nat :=
            if offset = -1 then
              if flags.is_append then (s.fs.file_info mnode_num).map (·.fsize)
              else some fdEntry.offset
            else some (intToUsize offset)
          match curr_offset with
          | none => none
          | some co =>
            match s.fs.write mnode_num payload co with
            | none => none
            | some (fs', .ok n) =>
              if offset = -1 then
                let fdesc' := fdesc.update_offset fd (co + n)
                some ({ s with
                          fs := fs'
                          process_map := alistInsert pid fdesc' s.process_map },
                      .ok (.FileAccessed n))
              else
                some ({ s with fs := fs' }, .ok (.FileAccessed n))
            | some (fs', .error e) =>
              some ({ s with fs := fs' }, .error (.FileSystem e))
  | .FileClose _ _ => none
  | .FileDelete _ _ => none
  | .FileRename _ _ _ => none

/-- One replication-log step: apply a write op, keeping the state (a panic
halts the machine; treating it as a skip only enlarges the reachable-state
set, which is sound for the invariants proved below). -/
def MlnrKernelNode.step (s : MlnrKernelNode) (op : Modify) : MlnrKernelNode :=
  match s.dispatch_mut op with
  | some (s', _) => s'
  | none => s

/-- Apply a write-op sequence in log order. -/
def MlnrKernelNode.runLog (s : MlnrKernelNode) (ops : List Modify) : MlnrKernelNode :=
  ops.foldl MlnrKernelNode.step s

/-- Apply a write-op sequence in log order, collecting every response. -/
def MlnrKernelNode.runLogTrace (s : MlnrKernelNode) (ops : List Modify) :
    MlnrKernelNode × List (Option MlnrResponse) :=
  match ops with
  | [] => (s, [])
  | op :: rest =>
    match s.dispatch_mut op with
    | some (s', r) =>
      let (sf, rs) := s'.runLogTrace rest
      (sf, some r :: rs)
    | none =>
      let (sf, rs) := s.runLogTrace rest
      (sf, none :: rs)

/-- The observable state of a replica: path set, mnode set, per-file
content, fd tables and counter values. -/
def MlnrKernelNode.observable (s : MlnrKernelNode) :
    List String × List Nat × List (Nat × List Nat) × List (Nat × FileDesc) × List Nat :=
  (s.fs.files.map (·.1),
   s.fs.mnodes.map (·.1),
   s.fs.mnodes.map (fun p => (p.1, ((p.2.file.map File.contents).getD []))),
   s.process_map,
   s.counters)

/-- Open flags `O_RDWR | O_CREAT`. -/
def rwCreate : FileFlags :=
  { read := true, write := true, append := false, create := true, truncate := false }

example :
    (MlnrKernelNode.default.dispatch_mut (.ProcessAdd 1)).map (·.2) =
      some (RResult.ok (.ProcessAdded 1)) := by decide

example :
    ((MlnrKernelNode.default.runLog [.ProcessAdd 1,
        .FileOpen 1 "/a" rwCreate 448]).fs.lookup "/a") = some 2 := by decide

/-! ## Invariants and scenario states -/

/-- The buffer-list invariant of a file body: every buffer except the last
holds exactly `BASE_PAGE_SIZE` bytes, and the last buffer is non-empty and
holds at most `BASE_PAGE_SIZE` bytes. -/
def pageChunksOk : List (List Nat) → Bool
  | [] => true
  | [b] => decide (0 < b.length ∧ b.length ≤ BASE_PAGE_SIZE)
  | b :: c :: rest => (b.length == BASE_PAGE_SIZE) && pageChunksOk (c :: rest)

/-- Split a byte list into consecutive `BASE_PAGE_SIZE` chunks (the last one
possibly short). -/
def chunksOf (l : List Nat) : List (List Nat) :=
  if h : l = [] then []
  else l.take BASE_PAGE_SIZE :: chunksOf (l.drop BASE_PAGE_SIZE)
termination_by l.length
decreasing_by
  simp only [List.length_drop]
  have : 0 < l.length := List.length_pos.mpr h
  simp [BASE_PAGE_SIZE]
  omega

/-- The files reachable from `File::new` by `resize_file` and (non-panicking)
`write_file` calls. -/
inductive FileReachable : File → Prop
  | new (modes : Nat) : FileReachable (File.new modes)
  | resize (f : File) (n : Nat) (h : FileReachable f) : FileReachable (f.resize_file n)
  | write (f : File) (src : List Nat) (len : Nat) (off : Int) (r : File × Nat)
      (h : FileReachable f) (hw : f.write_file src len off = some r) : FileReachable r.1

/-- Open flags `O_RDWR` (no `O_CREAT`). -/
def rwNoCreate : FileFlags :=
  { read := true, write := true, append := false, create := false, truncate := false }

/-- Open flags `O_RDWR | O_APPEND | O_CREAT`. -/
def rwAppendCreate : FileFlags :=
  { read := true, write := true, append := true, create := true, truncate := false }

/-- Scenario for C1: a process with fd 0 open on `/a` whose file holds three
bytes (written at offset 0). -/
def c1State : MlnrKernelNode :=
  MlnrKernelNode.default.runLog
    [.ProcessAdd 1, .FileOpen 1 "/a" rwCreate 448, .FileWrite 1 0 [7, 7, 7] 3 0]

/-- Scenario for C2: an arbitrary demonstration log. -/
def c2Ops : List Modify :=
  [.ProcessAdd 1, .FileOpen 1 "/a" rwCreate 448, .FileWrite 1 0 [1, 2] 2 (-1)]

/-- Scenario for C3: `/q` opened with `O_CREAT`, fd 0 still live. -/
def c3State : MlnrKernelNode :=
  MlnrKernelNode.default.runLog [.ProcessAdd 1, .FileOpen 1 "/q" rwCreate 448]

/-- Scenario for C4: process 1 with fd 0 bound to `/a`. -/
def c4State : MlnrKernelNode :=
  MlnrKernelNode.default.runLog [.ProcessAdd 1, .FileOpen 1 "/a" rwCreate 448]

/-- Scenario for C6: process 1 with fd 0 freshly bound to `/f`. -/
def c6State : MlnrKernelNode :=
  MlnrKernelNode.default.runLog [.ProcessAdd 1, .FileOpen 1 "/f" rwCreate 448]

/-- Scenario for C10: `/q` opened with `O_APPEND | O_CREAT`, fd 0 live. -/
def c10State : MlnrKernelNode :=
  MlnrKernelNode.default.runLog [.ProcessAdd 1, .FileOpen 1 "/q" rwAppendCreate 448]

/-- Scenario for C10 after `MlnrFS::delete("/q")` succeeded underneath the
still-live fd. -/
def c10Deleted : MlnrKernelNode :=
  { c10State with fs := (c10State.fs.delete "/q").1 }

/-- Scenario for the C4 witness: just process 1 added. -/
def c4Base : MlnrKernelNode := MlnrKernelNode.default.runLog [.ProcessAdd 1]

/-- The fd table of pid 1 in `c6State`: slot 0 bound to mnode 2. -/
def c6Fdesc : FileDesc :=
  { fds := (List.replicate MAX_FILES_PER_PROCESS none).set 0
      (some { mnode := 2, flags := rwCreate, offset := 0 }) }

/-! # Theorems -/

theorem basePagesLoop_eq (fuel : Nat) :
    ∀ (f : Frame), f.size % BASE_PAGE_SIZE = 0 → f.base % BASE_PAGE_SIZE = 0 →
      f.size / BASE_PAGE_SIZE < fuel →
      basePagesLoop fuel f =
        some ((List.range (f.size / BASE_PAGE_SIZE)).map
          (fun i => { base := f.base + BASE_PAGE_SIZE * i, size := BASE_PAGE_SIZE,
                      affinity := f.affinity })) := by
  induction fuel with
  | zero => exact fun f _ _ h => absurd h (Nat.not_lt_zero _)
  | succ fuel ih =>
    intro f hs hb h
    have hs4 : f.size % 4096 = 0 := hs
    have hb4 : f.base % 4096 = 0 := hb
    have h4 : f.size / 4096 < fuel + 1 := h
    by_cases hgt : BASE_PAGE_SIZE < f.size
    · have hgt4 : 4096 < f.size := hgt
      have hsplit : f.split_at BASE_PAGE_SIZE =
          some ({ base := f.base, size := BASE_PAGE_SIZE, affinity := f.affinity },
                { base := f.base + BASE_PAGE_SIZE, size := f.size - BASE_PAGE_SIZE,
                  affinity := f.affinity }) := by
        have h1 : ¬ BASE_PAGE_SIZE ≥ f.size := show ¬ 4096 ≥ f.size by omega
        have h2 : (f.base + BASE_PAGE_SIZE) % BASE_PAGE_SIZE = 0 :=
          show (f.base + 4096) % 4096 = 0 by omega
        have h3 : (f.size - BASE_PAGE_SIZE) % BASE_PAGE_SIZE = 0 :=
          show (f.size - 4096) % 4096 = 0 by omega
        simp [Frame.split_at, Frame.new, h1, h2, h3, hb, Nat.mod_self]
      rw [basePagesLoop]
      simp only [hgt, if_pos, hsplit]
      have hs' : (f.size - BASE_PAGE_SIZE) % BASE_PAGE_SIZE = 0 :=
        show (f.size - 4096) % 4096 = 0 by omega
      have hb' : (f.base + BASE_PAGE_SIZE) % BASE_PAGE_SIZE = 0 :=
        show (f.base + 4096) % 4096 = 0 by omega
      have hlt : (f.size - BASE_PAGE_SIZE) / BASE_PAGE_SIZE < fuel :=
        show (f.size - 4096) / 4096 < fuel by omega
      rw [ih { base := f.base + BASE_PAGE_SIZE, size := f.size - BASE_PAGE_SIZE,
               affinity := f.affinity } hs' hb' hlt]
      have hq2 : f.size / BASE_PAGE_SIZE = (f.size / BASE_PAGE_SIZE - 1) + 1 :=
        show f.size / 4096 = f.size / 4096 - 1 + 1 by omega
      obtain ⟨m, hm⟩ : ∃ m, f.size / BASE_PAGE_SIZE = m + 1 := ⟨_, hq2⟩
      have hm4 : f.size / 4096 = m + 1 := hm
      have hq : (f.size - BASE_PAGE_SIZE) / BASE_PAGE_SIZE = m :=
        show (f.size - 4096) / 4096 = m by omega
      rw [hq, hm, List.range_succ_eq_map]
      simp only [Option.map_some', Option.some.injEq, List.map_cons, List.map_map,
        List.cons.injEq]
      refine ⟨by simp, ?_⟩
      apply List.map_congr_left
      intro a _
      simp only [Function.comp_apply, Frame.mk.injEq, Nat.succ_eq_add_one,
        and_true, BASE_PAGE_SIZE]
      omega
    · rw [basePagesLoop]
      simp only [hgt, if_neg, if_false]
      have hgt4 : ¬ 4096 < f.size := hgt
      by_cases heq : f.size = BASE_PAGE_SIZE
      · have heq4 : f.size = 4096 := heq
        have h1 : f.size / BASE_PAGE_SIZE = 1 := show f.size / 4096 = 1 by omega
        rw [h1]
        have h2 : List.range 1 = [0] := rfl
        simp only [heq, if_pos, h2, List.map_cons, List.map_nil,
          Option.some.injEq, Nat.mul_zero, Nat.add_zero]
        cases f with
        | mk b s a => simp_all
      · have heq4 : f.size ≠ 4096 := heq
        have h0 : f.size = 0 := by omega
        have h1 : f.size / BASE_PAGE_SIZE = 0 := show f.size / 4096 = 0 by omega
        simp [heq, h1]

/-- C9: for a frame whose size is a multiple of `BASE_PAGE_SIZE` (and whose
base is page-aligned, the documented `Frame` invariant which the asserts in
`Frame::new` enforce), `into_base_pages` yields exactly `size / 4096` frames
of size `BASE_PAGE_SIZE` and the frame's affinity, with consecutive bases
`base, base + 4096, ...` covering `[base, base + size)` without gaps or
overlaps. -/
theorem frame_into_base_pages_covers (f : Frame)
    (hs : f.size % BASE_PAGE_SIZE = 0) (hb : f.base % BASE_PAGE_SIZE = 0) :
    ∃ pages, f.into_base_pages = some pages ∧
      pages = (List.range (f.size / BASE_PAGE_SIZE)).map
        (fun i => { base := f.base + BASE_PAGE_SIZE * i, size := BASE_PAGE_SIZE,
                    affinity := f.affinity }) ∧
      pages.length = f.size / BASE_PAGE_SIZE := by
  refine ⟨_, basePagesLoop_eq _ f hs hb (Nat.lt_succ_self _), rfl, by simp⟩

/-- C9 witness: a concrete three-page frame. -/
theorem frame_into_base_pages_covers_witness :
    (12288 % BASE_PAGE_SIZE = 0 ∧ 8192 % BASE_PAGE_SIZE = 0) ∧
    ∃ pages,
      Frame.into_base_pages { base := 8192, size := 12288, affinity := 3 } = some pages ∧
      pages = (List.range (12288 / BASE_PAGE_SIZE)).map
        (fun i => { base := 8192 + BASE_PAGE_SIZE * i, size := BASE_PAGE_SIZE,
                    affinity := 3 }) ∧
      pages.length = 12288 / BASE_PAGE_SIZE :=
  ⟨by decide, frame_into_base_pages_covers
    { base := 8192, size := 12288, affinity := 3 } (by decide) (by decide)⟩

theorem alistFind_insert {α β : Type} [DecidableEq α] (k k' : α) (v : β)
    (l : List (α × β)) :
    alistFind k' (alistInsert k v l) = if k' = k then some v else alistFind k' l := by
  unfold alistInsert
  induction l with
  | nil => simp [alistFind, alistErase]
  | cons p rest ih =>
    obtain ⟨k₀, v₀⟩ := p
    by_cases h1 : k = k₀ <;> by_cases h2 : k' = k₀ <;>
      simp_all [alistFind, alistErase]

theorem alistFind_erase {α β : Type} [DecidableEq α] (k k' : α) (l : List (α × β)) :
    alistFind k' (alistErase k l) = if k' = k then none else alistFind k' l := by
  induction l with
  | nil => simp [alistFind, alistErase]
  | cons p rest ih =>
    obtain ⟨k₀, v₀⟩ := p
    by_cases h1 : k = k₀ <;> by_cases h2 : k' = k₀ <;>
      simp_all [alistFind, alistErase, eq_comm]

/-- C1 (amended): `dispatch` is pure — it returns the state unchanged (in
particular no fd offset is advanced) — but its response is
`Ok(Incremented(counters[0]))` for every read operation, independent of the
operation; the file-body read of a `FileRead` operation is not applied. -/
theorem dispatch_is_counter_probe (s : MlnrKernelNode) (c : Nat)
    (h : s.counters.get? 0 = some c) (op op' : Access) :
    s.dispatch op = some (s, .ok (.Incremented c)) ∧
    s.dispatch op = s.dispatch op' := by
  refine ⟨?_, rfl⟩
  unfold MlnrKernelNode.dispatch
  rw [h]
  rfl

/-- C1 witness for the amended theorem, at the default node. -/
theorem dispatch_is_counter_probe_witness :
    MlnrKernelNode.default.counters.get? 0 = some 0 ∧
    MlnrKernelNode.default.dispatch (.FileRead 1 0 0 3 0) =
      some (MlnrKernelNode.default, .ok (.Incremented 0)) :=
  ⟨rfl,
   (dispatch_is_counter_probe MlnrKernelNode.default 0 rfl
      (.FileRead 1 0 0 3 0) .Get).1⟩

/-- C1 counterexample to the claim as stated: in `c1State` fd 0 of pid 1 is
bound to mnode 2 whose file-body read of bytes `[0, 3)` returns 3 bytes, yet
`dispatch(FileRead(1, 0, buf, 3, 0))` responds `Incremented(0)`, not the
file-body read result. -/
theorem dispatch_fileread_counterexample :
    (c1State.dispatch (.FileRead 1 0 0 3 0)).map (·.2) =
      some (.ok (.Incremented 0)) ∧
    ((alistFind 1 c1State.process_map).bind (fun t => t.get_fd 0)).map Fd.mnode =
      some 2 ∧
    ((alistFind 2 c1State.fs.mnodes).bind (fun mem => mem.file)).bind
        (fun fl => (fl.read_file [0, 0, 0] 0 3).map (·.2)) = some 3 ∧
    (MlnrNodeResult.Incremented 0) ≠ (MlnrNodeResult.FileAccessed 3) := by decide

/-- C2: replication determinism — applying the same write-op sequence, in the
same order, to two freshly constructed (`Default`) replicas produces the same
response for every operation and identical observable state (path set, mnode
set, per-file content, fd tables, counter values).  In this embedding
`dispatch_mut` is a pure function of state and operation, which is exactly
the determinism demanded of the source code. -/
theorem dispatch_mut_replica_determinism (ops : List Modify) (r1 r2 : MlnrKernelNode)
    (h1 : r1 = MlnrKernelNode.default) (h2 : r2 = MlnrKernelNode.default) :
    (r1.runLogTrace ops).2 = (r2.runLogTrace ops).2 ∧
    (r1.runLogTrace ops).1.observable = (r2.runLogTrace ops).1.observable := by
  subst h1; subst h2; exact ⟨rfl, rfl⟩

/-- C2 witness at a concrete log. -/
theorem dispatch_mut_replica_determinism_witness :
    (MlnrKernelNode.default.runLogTrace c2Ops).2 =
      (MlnrKernelNode.default.runLogTrace c2Ops).2 ∧
    (MlnrKernelNode.default.runLogTrace c2Ops).1.observable =
      (MlnrKernelNode.default.runLogTrace c2Ops).1.observable :=
  dispatch_mut_replica_determinism c2Ops MlnrKernelNode.default MlnrKernelNode.default
    rfl rfl

/-- C4 (amended): `dispatch_mut(ProcessAdd(pid))` on a pid already present
returns `ProcessError::NotEnoughMemory`, but the `insert` has already
happened: the pid's fd table is replaced by a fresh default table, so the
previous fd table is *not* preserved. -/
theorem process_add_duplicate_replaces_table (s : MlnrKernelNode) (pid : Nat)
    (t : FileDesc) (h : alistFind pid s.process_map = some t) :
    s.dispatch_mut (.ProcessAdd pid) =
      some ({ s with process_map := alistInsert pid FileDesc.mkDefault s.process_map },
            .error (.ProcessErr .NotEnoughMemory)) := by
  simp [MlnrKernelNode.dispatch_mut, h]

/-- C4 witness for the amended theorem. -/
theorem process_add_duplicate_replaces_table_witness :
    alistFind 1 c4Base.process_map = some FileDesc.mkDefault ∧
    c4Base.dispatch_mut (.ProcessAdd 1) =
      some ({ c4Base with process_map := alistInsert 1 FileDesc.mkDefault c4Base.process_map },
            .error (.ProcessErr .NotEnoughMemory)) :=
  ⟨rfl, process_add_duplicate_replaces_table c4Base 1 FileDesc.mkDefault rfl⟩

/-- C4 counterexample to the claim as stated: in `c4State` pid 1 has fd 0
bound; the duplicate `ProcessAdd(1)` returns the claimed error but wipes the
fd table — afterwards fd 0 is empty, so the process map was not left
unchanged. -/
theorem process_add_duplicate_counterexample :
    (c4State.dispatch_mut (.ProcessAdd 1)).map (·.2) =
      some (.error (.ProcessErr .NotEnoughMemory)) ∧
    (alistFind 1 c4State.process_map).bind (fun t => t.get_fd 0) =
      some { mnode := 2, flags := rwCreate, offset := 0 } ∧
    (c4State.dispatch_mut (.ProcessAdd 1)).map
        (fun p => (alistFind 1 p.1.process_map).bind (fun t => t.get_fd 0)) =
      some none := by decide

theorem create_of_lookup_none (fs : MlnrFS) (path : String) (modes : Nat)
    (h : fs.lookup path = none) :
    fs.create path modes =
      ({ fs with
          nextmemnode := fs.nextmemnode + 1
          files := alistInsert path { val := fs.nextmemnode, extra := 0 } fs.files
          mnodes := alistInsert fs.nextmemnode
            (MemNode.new fs.nextmemnode path modes .File) fs.mnodes },
        .ok fs.nextmemnode) := by
  have h' : alistFind path fs.files = none := by
    unfold MlnrFS.lookup at h
    cases hf : alistFind path fs.files
    · rfl
    · rw [hf] at h; simp at h
  unfold MlnrFS.create
  rw [h']

/-- C5: `dispatch_mut(FileOpen(pid, path, flags, modes))` with `path` absent
and `CREATE` unset answers `PermissionError`; and every error outcome of
`FileOpen` leaves the state exactly as it was — any speculatively allocated
fd has been deallocated, and pid's fd table and the file-system maps are
unchanged. -/
theorem file_open_missing_without_create_and_rollback (s : MlnrKernelNode)
    (pid : Nat) (path : String) (flags : FileFlags) (modes : Nat) :
    (s.fs.lookup path = none → flags.is_create = false →
      s.dispatch_mut (.FileOpen pid path flags modes) =
        some (s, .error (.FileSystem .PermissionError))) ∧
    (∀ s' e, s.dispatch_mut (.FileOpen pid path flags modes) = some (s', .error e) →
      s' = s) := by
  constructor
  · intro hm hc
    simp [MlnrKernelNode.dispatch_mut, hm, hc]
  · intro s' e h
    simp only [MlnrKernelNode.dispatch_mut] at h
    split at h
    · simp only [Option.some.injEq, Prod.mk.injEq] at h
      exact h.1.symm
    · split at h
      · simp at h
      · split at h
        · simp only [Option.some.injEq, Prod.mk.injEq] at h
          exact h.1.symm
        · split at h
          · rename_i hm
            rw [create_of_lookup_none s.fs path modes hm] at h
            simp at h
          · split at h
            · simp at h
            · simp at h

/-- C5 witness: opening `/nope` with `O_RDWR` (no `CREATE`) on the default
node fails with `PermissionError`. -/
theorem file_open_missing_without_create_witness :
    MlnrKernelNode.default.fs.lookup "/nope" = none ∧
    rwNoCreate.is_create = false ∧
    MlnrKernelNode.default.dispatch_mut (.FileOpen 7 "/nope" rwNoCreate 448) =
      some (MlnrKernelNode.default, .error (.FileSystem .PermissionError)) :=
  ⟨rfl, rfl,
   (file_open_missing_without_create_and_rollback MlnrKernelNode.default 7 "/nope"
      rwNoCreate 448).1 rfl rfl⟩

theorem mlnrfs_write_files (fs : MlnrFS) (m : Nat) (buf : List Nat) (off : Nat)
    (fs' : MlnrFS) (r : RResult Nat FileSystemError)
    (h : fs.write m buf off = some (fs', r)) : fs'.files = fs.files := by
  unfold MlnrFS.write at h
  split at h
  · split at h
    · simp at h
    · simp only [Option.some.injEq, Prod.mk.injEq] at h
      rw [← h.1]
  · simp only [Option.some.injEq, Prod.mk.injEq] at h
    rw [← h.1]

theorem step_files (s : MlnrKernelNode) (op : Modify) :
    (s.step op).fs.files = s.fs.files ∨
    ∃ path m, (s.step op).fs.files =
      alistInsert path { val := m, extra := 0 } s.fs.files := by
  unfold MlnrKernelNode.step
  cases op with
  | Increment tid =>
    left
    split
    · rename_i s' r h
      simp only [MlnrKernelNode.dispatch_mut] at h
      split at h
      · simp at h
      · simp only [Option.some.injEq, Prod.mk.injEq] at h
        rw [← h.1]
    · rfl
  | ProcessAdd pid =>
    left
    split
    · rename_i s' r h
      simp only [MlnrKernelNode.dispatch_mut] at h
      split at h <;>
        (simp only [Option.some.injEq, Prod.mk.injEq] at h; rw [← h.1])
    · rfl
  | ProcessRemove pid =>
    left
    split
    · rename_i s' r h
      simp only [MlnrKernelNode.dispatch_mut] at h
      simp at h
    · rfl
  | FileOpen pid filename flags modes =>
    split
    · rename_i s' r h
      simp only [MlnrKernelNode.dispatch_mut] at h
      split at h
      · left; simp only [Option.some.injEq, Prod.mk.injEq] at h; rw [← h.1]
      · split at h
        · simp at h
        · split at h
          · left; simp only [Option.some.injEq, Prod.mk.injEq] at h; rw [← h.1]
          · split at h
            · rename_i hm
              rw [create_of_lookup_none s.fs filename modes hm] at h
              simp only [Option.some.injEq, Prod.mk.injEq] at h
              right
              refine ⟨filename, s.fs.nextmemnode, ?_⟩
              rw [← h.1]
            · split at h
              · simp at h
              · left; simp only [Option.some.injEq, Prod.mk.injEq] at h; rw [← h.1]
    · left; rfl
  | FileWrite pid fd payload len offset =>
    left
    split
    · rename_i s' r h
      simp only [MlnrKernelNode.dispatch_mut] at h
      repeat' split at h
      all_goals
        first
          | (simp at h; done)
          | (simp only [Option.some.injEq, Prod.mk.injEq] at h
             obtain ⟨h1, h2⟩ := h
             rw [← h1]
             first
               | done
               | exact mlnrfs_write_files _ _ _ _ _ _ (by assumption))
    · rfl
  | FileClose pid fd =>
    left
    split
    · rename_i s' r h
      simp only [MlnrKernelNode.dispatch_mut] at h
      simp at h
    · rfl
  | FileDelete pid filename =>
    left
    split
    · rename_i s' r h
      simp only [MlnrKernelNode.dispatch_mut] at h
      simp at h
    · rfl
  | FileRename pid oldname newname =>
    left
    split
    · rename_i s' r h
      simp only [MlnrKernelNode.dispatch_mut] at h
      simp at h
    · rfl

theorem extras_zero_step (s : MlnrKernelNode) (op : Modify)
    (hs : ∀ p arc, alistFind p s.fs.files = some arc → arc.extra = 0) :
    ∀ p arc, alistFind p (s.step op).fs.files = some arc → arc.extra = 0 := by
  intro p arc h
  rcases step_files s op with hf | ⟨path, m, hf⟩
  · exact hs p arc (hf ▸ h)
  · rw [hf, alistFind_insert] at h
    split at h
    · cases h; rfl
    · exact hs p arc h

theorem extras_zero_runLog (ops : List Modify) :
    ∀ (s : MlnrKernelNode),
      (∀ p arc, alistFind p s.fs.files = some arc → arc.extra = 0) →
      ∀ p arc, alistFind p (s.runLog ops).fs.files = some arc → arc.extra = 0 := by
  induction ops with
  | nil => intro s hs; exact hs
  | cons op rest ih =>
    intro s hs
    exact ih (s.step op) (extras_zero_step s op hs)

theorem extras_zero_default :
    ∀ p arc, alistFind p MlnrKernelNode.default.fs.files = some arc → arc.extra = 0 := by
  intro p arc h
  simp only [MlnrKernelNode.default, MlnrFS.default, alistFind] at h
  split at h
  · cases h; rfl
  · cases h

/-- C3 (amended): `MlnrFS::delete(p)` removes `p` and drops the `MemNode`
exactly when the shared count of the removed `Arc` is 1 after removal
(no clone held outside the `files` map), and re-inserts `p` with
`PermissionError` exactly when the count exceeds 1.  However, an fd bound by
`dispatch_mut(FileOpen)` stores only the dereferenced mnode number — no
operation retains an `Arc` clone — so in every dispatch-reachable state the
count is 1 for every path and `delete` succeeds (returning `Ok(true)` and
unbinding the path) even while such an fd is live. -/
theorem delete_shared_count_semantics :
    (∀ (fs : MlnrFS) (path : String) (arc : ArcMnode),
      alistFind path fs.files = some arc →
      (arc.extra = 0 →
        fs.delete path =
          ({ fs with
              files := alistErase path fs.files
              mnodes := alistErase arc.val fs.mnodes }, .ok true)) ∧
      (arc.extra ≠ 0 →
        fs.delete path =
          ({ fs with files := alistInsert path arc (alistErase path fs.files) },
            .error .PermissionError))) ∧
    (∀ (ops : List Modify) (path : String) (arc : ArcMnode),
      alistFind path (MlnrKernelNode.default.runLog ops).fs.files = some arc →
      arc.extra = 0) := by
  constructor
  · intro fs path arc hfind
    constructor
    · intro hz
      unfold MlnrFS.delete
      rw [hfind]
      obtain ⟨v, e⟩ := arc
      simp only at hz
      subst hz
      rfl
    · intro hnz
      unfold MlnrFS.delete
      rw [hfind]
      obtain ⟨v, e⟩ := arc
      simp only at hnz
      cases e with
      | zero => exact absurd rfl hnz
      | succ e' =>
        simp only [Nat.add_comm 1]
  · intro ops path arc h
    exact extras_zero_runLog ops MlnrKernelNode.default extras_zero_default path arc h

/-- C3 witness for the amended theorem: deleting `/q` in `c3State` (where fd
0 of pid 1 is still bound to mnode 2) succeeds and drops both map entries. -/
theorem delete_shared_count_semantics_witness :
    alistFind "/q" c3State.fs.files = some { val := 2, extra := 0 } ∧
    c3State.fs.delete "/q" =
      ({ c3State.fs with
          files := alistErase "/q" c3State.fs.files
          mnodes := alistErase 2 c3State.fs.mnodes }, .ok true) :=
  ⟨rfl,
   (delete_shared_count_semantics.1 c3State.fs "/q" { val := 2, extra := 0 } rfl).1 rfl⟩

/-- C3 counterexample to the claim as stated: in `c3State` the fd bound by
`FileOpen` for `/q` is live (no `FileClose` was applied), yet `delete("/q")`
returns `Ok(true)` — not `PermissionError` — and `/q` is no longer bound
(its `MemNode` is dropped as well). -/
theorem delete_while_fd_open_counterexample :
    (c3State.fs.delete "/q").2 = .ok true ∧
    alistFind "/q" (c3State.fs.delete "/q").1.files = none ∧
    alistFind 2 (c3State.fs.delete "/q").1.mnodes = none ∧
    (alistFind 1 c3State.process_map).bind (fun t => t.get_fd 0) =
      some { mnode := 2, flags := rwCreate, offset := 0 } := by decide

/-- C10: `MlnrFS::file_info` is partial — on any mnode absent from the
`mnodes` map it reaches the `unreachable!` arm (a panic, `none` in the
model) instead of returning an error.  The second conjunct exhibits the
reachability of that panic through the dispatcher: in `c10Deleted` the file
of the still-live, `O_APPEND` fd 0 has been deleted underneath it, and
`dispatch_mut(FileWrite(pid, fd, buf, len, -1))` hits `file_info` on the
unregistered mnode and panics. -/
theorem file_info_partial_on_absent_mnode :
    (∀ (fs : MlnrFS) (m : Nat), alistFind m fs.mnodes = none → fs.file_info m = none) ∧
    (c10Deleted.dispatch_mut (.FileWrite 1 0 [1] 1 (-1)) = none ∧
     (alistFind 1 c10Deleted.process_map).bind (fun t => t.get_fd 0) =
       some { mnode := 2, flags := rwAppendCreate, offset := 0 } ∧
     alistFind 2 c10Deleted.fs.mnodes = none) := by
  constructor
  · intro fs m h
    unfold MlnrFS.file_info
    rw [h]
  · exact ⟨by decide, by decide, by decide⟩

/-- C10 witness: `file_info` on mnode 5, absent from the default file
system, panics. -/
theorem file_info_partial_on_absent_mnode_witness :
    alistFind 5 MlnrFS.default.mnodes = none ∧ MlnrFS.default.file_info 5 = none :=
  ⟨rfl, file_info_partial_on_absent_mnode.1 MlnrFS.default 5 rfl⟩

/-- C6: `dispatch_mut(FileWrite(pid, fd, payload, len, off))` on a bound fd:
without the `WRITE` flag the response is `PermissionError` and the state is
returned unchanged; otherwise the file-body write is performed at the
effective offset — `off` itself when `off ≠ -1` (the `as usize` cast is the
identity in the i64 range), the current file size (`file_info(...).fsize`)
when `off = -1` and the fd has `APPEND`, and the fd's stored offset when
`off = -1` without `APPEND` — and exactly when `off = -1` the fd's stored
offset is advanced to the effective offset plus the bytes written. -/
theorem file_write_dispatch_semantics (s : MlnrKernelNode) (pid fd : Nat)
    (payload : List Nat) (len : Nat) (off : Int) (fdesc : FileDesc) (e : Fd)
    (hp : alistFind pid s.process_map = some fdesc)
    (hf : fdesc.get_fd fd = some e) :
    (e.flags.is_write = false →
      s.dispatch_mut (.FileWrite pid fd payload len off) =
        some (s, .error (.FileSystem .PermissionError))) ∧
    (e.flags.is_write = true → 0 ≤ off → off < 2 ^ 63 →
      s.dispatch_mut (.FileWrite pid fd payload len off) =
        (match s.fs.write e.mnode payload off.toNat with
         | none => none
         | some (fs', .ok n) => some ({ s with fs := fs' }, .ok (.FileAccessed n))
         | some (fs', .error er) =>
           some ({ s with fs := fs' }, .error (.FileSystem er)))) ∧
    (e.flags.is_write = true → off = -1 → e.flags.is_append = false →
      s.dispatch_mut (.FileWrite pid fd payload len off) =
        (match s.fs.write e.mnode payload e.offset with
         | none => none
         | some (fs', .ok n) =>
           some ({ s with
                    fs := fs'
                    process_map :=
                      alistInsert pid (fdesc.update_offset fd (e.offset + n))
                        s.process_map },
                 .ok (.FileAccessed n))
         | some (fs', .error er) =>
           some ({ s with fs := fs' }, .error (.FileSystem er)))) ∧
    (e.flags.is_write = true → off = -1 → e.flags.is_append = true →
      ∀ fi, s.fs.file_info e.mnode = some fi →
      s.dispatch_mut (.FileWrite pid fd payload len off) =
        (match s.fs.write e.mnode payload fi.fsize with
         | none => none
         | some (fs', .ok n) =>
           some ({ s with
                    fs := fs'
                    process_map :=
                      alistInsert pid (fdesc.update_offset fd (fi.fsize + n))
                        s.process_map },
                 .ok (.FileAccessed n))
         | some (fs', .error er) =>
           some ({ s with fs := fs' }, .error (.FileSystem er)))) := by
  refine ⟨?_, ?_, ?_, ?_⟩
  · intro hw
    simp only [MlnrKernelNode.dispatch_mut, hp, hf, hw]
    rfl
  · intro hw h0 h63
    have hne : ¬ off = -1 := by omega
    have hcast : intToUsize off = off.toNat := by
      unfold intToUsize
      have h64 : (2 : Int) ^ 64 = 18446744073709551616 := by norm_num
      have h63' : (2 : Int) ^ 63 = 9223372036854775808 := by norm_num
      rw [h64]
      have : off % 18446744073709551616 = off := by omega
      rw [this]
    simp only [MlnrKernelNode.dispatch_mut, hp, hf, hw, hne, hcast]
    cases hww : s.fs.write e.mnode payload off.toNat with
    | none => simp [hww]
    | some pr =>
      obtain ⟨fs', r⟩ := pr
      cases r with
      | ok n => simp [hww]
      | error er => simp [hww]
  · intro hw hoff hap
    subst hoff
    simp only [MlnrKernelNode.dispatch_mut, hp, hf, hw, hap]
    cases hww : s.fs.write e.mnode payload e.offset with
    | none => simp [hww]
    | some pr =>
      obtain ⟨fs', r⟩ := pr
      cases r with
      | ok n => simp [hww]
      | error er => simp [hww]
  · intro hw hoff hap fi hfi
    subst hoff
    simp only [MlnrKernelNode.dispatch_mut, hp, hf, hw, hap, hfi]
    cases hww : s.fs.write e.mnode payload fi.fsize with
    | none => simp [hww]
    | some pr =>
      obtain ⟨fs', r⟩ := pr
      cases r with
      | ok n => simp [hww]
      | error er => simp [hww]

/-- C6 witness, at the `off = -1`, no-`APPEND` case of a fresh fd. -/
theorem file_write_dispatch_semantics_witness :
    alistFind 1 c6State.process_map = some c6Fdesc ∧
    c6Fdesc.get_fd 0 = some { mnode := 2, flags := rwCreate, offset := 0 } ∧
    c6State.dispatch_mut (.FileWrite 1 0 [9, 9] 2 (-1)) =
      (match c6State.fs.write 2 [9, 9] 0 with
       | none => none
       | some (fs', .ok n) =>
         some ({ c6State with
                  fs := fs'
                  process_map :=
                    alistInsert 1 (c6Fdesc.update_offset 0 (0 + n)) c6State.process_map },
               .ok (.FileAccessed n))
       | some (fs', .error er) =>
         some ({ c6State with fs := fs' }, .error (.FileSystem er))) :=
  ⟨rfl, rfl,
   (file_write_dispatch_semantics c6State 1 0 [9, 9] 2 (-1) c6Fdesc
      { mnode := 2, flags := rwCreate, offset := 0 } rfl rfl).2.2.1 rfl rfl rfl⟩

theorem resizeZero_length (l : List Nat) (n : Nat) : (resizeZero l n).length = n := by
  unfold resizeZero
  split <;> simp <;> omega

theorem chunksOk_cons_cons (b c : List Nat) (rest : List (List Nat))
    (h : pageChunksOk (b :: c :: rest) = true) :
    b.length = BASE_PAGE_SIZE ∧ pageChunksOk (c :: rest) = true := by
  simpa [pageChunksOk] using h

theorem chunksOk_single (b : List Nat) (h : pageChunksOk [b] = true) :
    0 < b.length ∧ b.length ≤ BASE_PAGE_SIZE := by
  simpa [pageChunksOk] using h

theorem chunksOk_all_pos (l : List (List Nat)) (h : pageChunksOk l = true) :
    ∀ b ∈ l, 0 < b.length := by
  induction l with
  | nil => intro b hb; cases hb
  | cons b rest ih =>
    cases rest with
    | nil =>
      intro x hx
      rcases chunksOk_single b h with ⟨h1, _⟩
      simp at hx
      subst hx
      exact h1
    | cons c rest' =>
      rcases chunksOk_cons_cons b c rest' h with ⟨hb, hrest⟩
      intro x hx
      rcases List.mem_cons.mp hx with hx1 | hx1
      · subst hx1; rw [hb]; simp [BASE_PAGE_SIZE]
      · exact ih hrest x hx1

theorem sumUntilEmpty_eq (l : List (List Nat)) (h : ∀ b ∈ l, 0 < b.length) :
    sumUntilEmptyBuffer l = l.flatten.length := by
  induction l with
  | nil => rfl
  | cons b rest ih =>
    have hb : 0 < b.length := h b (List.mem_cons_self _ _)
    unfold sumUntilEmptyBuffer
    rw [if_neg (by omega)]
    rw [ih (fun x hx => h x (List.mem_cons_of_mem _ hx))]
    simp

theorem get_size_eq_flatten (f : File) (h : pageChunksOk f.mcache = true) :
    f.get_size = f.contents.length := by
  unfold File.get_size File.contents
  match hm : f.mcache with
  | [] => rfl
  | [b] => simp
  | b :: c :: rest =>
    show sumUntilEmptyBuffer (b :: c :: rest) = (b :: c :: rest).flatten.length
    rw [sumUntilEmpty_eq _ (chunksOk_all_pos _ (hm ▸ h))]

theorem readLoop_spec (bufs : List (List Nat)) :
    ∀ (off need : Nat),
      off + need ≤ bufs.flatten.length →
      off ≤ (bufs.headD []).length →
      readLoop bufs off need = some ((bufs.flatten.drop off).take need) := by
  induction bufs with
  | nil =>
    intro off need h1 h2
    simp only [List.flatten_nil, List.length_nil, List.headD_nil, List.length_nil] at h1 h2
    have h0 : off = 0 := by omega
    have hn : need = 0 := by omega
    subst h0; subst hn
    rfl
  | cons b rest ih =>
    intro off need h1 h2
    simp only [List.headD_cons] at h2
    simp only [List.flatten_cons, List.length_append] at h1
    by_cases hneed : need = 0
    · subst hneed
      simp [readLoop]
    · simp only [readLoop]
      rw [if_neg hneed, if_neg (show ¬ b.length < off by omega)]
      have a1 : 0 + (need - min need (b.length - off)) ≤ rest.flatten.length := by
        have := Nat.min_le_left need (b.length - off)
        have := Nat.min_le_right need (b.length - off)
        omega
      rw [ih 0 (need - min need (b.length - off)) a1 (Nat.zero_le _)]
      simp only [List.flatten_cons, List.drop_zero]
      rw [List.drop_append_eq_append_drop]
      rw [show off - b.length = 0 by omega, List.drop_zero]
      rw [List.take_append_eq_append_take]
      have hlen : (b.drop off).length = b.length - off := by simp
      rw [hlen]
      rcases Nat.le_total need (b.length - off) with hle | hle
      · rw [Nat.min_eq_left hle]
        rw [show need - (b.length - off) = 0 by omega, show need - need = 0 by omega]
      · rw [Nat.min_eq_right hle]
        rw [show (b.drop off).take need = b.drop off from by
          apply List.take_of_length_le; omega]
        rw [show (b.drop off).take (b.length - off) = b.drop off from by
          rw [← hlen]; simp]

theorem chunked_take_flatten_length (l : List (List Nat)) :
    ∀ bn, pageChunksOk l = true → bn * BASE_PAGE_SIZE ≤ l.flatten.length →
      (l.take bn).flatten.length = bn * BASE_PAGE_SIZE := by
  have hbp : BASE_PAGE_SIZE = 4096 := rfl
  induction l with
  | nil =>
    intro bn h hle
    simp only [List.flatten_nil, List.length_nil] at hle
    have hb0 : bn = 0 := by rw [hbp] at hle; omega
    subst hb0
    simp
  | cons b rest ih =>
    intro bn h hle
    cases bn with
    | zero => simp
    | succ m =>
      cases rest with
      | nil =>
        rcases chunksOk_single b h with ⟨h1, h2⟩
        simp only [List.flatten_cons, List.flatten_nil, List.append_nil] at hle
        rw [hbp] at h2 hle
        have hm : m = 0 := by omega
        have hl : b.length = 4096 := by omega
        subst hm
        simp [hl, hbp]
      | cons c rest' =>
        rcases chunksOk_cons_cons b c rest' h with ⟨hb, hrest⟩
        have hle' : m * BASE_PAGE_SIZE ≤ (c :: rest').flatten.length := by
          simp only [List.flatten_cons, List.length_append] at hle ⊢
          rw [hb] at hle
          rw [hbp] at hle ⊢
          omega
        have hih := ih m hrest hle'
        simp only [List.take_succ_cons, List.flatten_cons, List.length_append, hih, hb]
        ring

theorem chunked_head_drop (l : List (List Nat)) :
    ∀ s, pageChunksOk l = true → s ≤ l.flatten.length →
      s - (s / BASE_PAGE_SIZE) * BASE_PAGE_SIZE ≤
        ((l.drop (s / BASE_PAGE_SIZE)).headD []).length := by
  have hbp : BASE_PAGE_SIZE = 4096 := rfl
  induction l with
  | nil =>
    intro s h hle
    simp only [List.flatten_nil, List.length_nil] at hle
    have hs0 : s = 0 := by omega
    subst hs0
    simp
  | cons b rest ih =>
    intro s h hle
    by_cases hs : s < BASE_PAGE_SIZE
    · have h0 : s / BASE_PAGE_SIZE = 0 := by rw [hbp] at hs ⊢; omega
      rw [h0]
      simp only [List.drop_zero, List.headD_cons, Nat.zero_mul, Nat.sub_zero]
      cases rest with
      | nil =>
        simp only [List.flatten_cons, List.flatten_nil, List.append_nil] at hle
        exact hle
      | cons c r' =>
        rcases chunksOk_cons_cons b c r' h with ⟨hb, _⟩
        rw [hb, hbp]
        rw [hbp] at hs
        omega
    · cases rest with
      | nil =>
        rcases chunksOk_single b h with ⟨h1, h2⟩
        simp only [List.flatten_cons, List.flatten_nil, List.append_nil] at hle
        rw [hbp] at h2 hs
        have hs4 : s = 4096 := by omega
        subst hs4
        have hq : (4096 : Nat) / BASE_PAGE_SIZE = 1 := by rw [hbp]
        rw [hq]
        simp [hbp]
      | cons c r' =>
        rcases chunksOk_cons_cons b c r' h with ⟨hb, hrest⟩
        rw [hbp] at hs
        have hdiv : s / BASE_PAGE_SIZE = (s - BASE_PAGE_SIZE) / BASE_PAGE_SIZE + 1 := by
          rw [hbp]; omega
        rw [hdiv]
        simp only [List.drop_succ_cons]
        have hle' : s - BASE_PAGE_SIZE ≤ (c :: r').flatten.length := by
          simp only [List.flatten_cons, List.length_append] at hle ⊢
          rw [hb] at hle
          rw [hbp] at hle ⊢
          omega
        have hih := ih (s - BASE_PAGE_SIZE) hrest hle'
        have harith : s - ((s - BASE_PAGE_SIZE) / BASE_PAGE_SIZE + 1) * BASE_PAGE_SIZE
            = (s - BASE_PAGE_SIZE) - ((s - BASE_PAGE_SIZE) / BASE_PAGE_SIZE) * BASE_PAGE_SIZE := by
          rw [hbp]; omega
        rw [harith]
        exact hih

/-- C8: for a file satisfying the buffer-list invariant and
`start ≤ end ≤ get_size()`, with a destination of length at least
`end - start`, `read_file(dst, start, end)` returns `Ok(end - start)` and
fills `dst[0 .. end-start)` with the file's logical bytes in
`[start, end)` (the rest of `dst` is untouched).  The source takes the file
by shared reference and the loop allocates nothing, which the embedding
reflects by returning no new `File`: the file is unchanged and no buffer is
allocated. -/
theorem file_read_file_correct (f : File) (dst : List Nat) (s e : Nat)
    (hinv : pageChunksOk f.mcache = true) (hse : s ≤ e) (he : e ≤ f.get_size)
    (hdst : e - s ≤ dst.length) :
    f.read_file dst s e =
      some ((f.contents.drop s).take (e - s) ++ dst.drop (e - s), e - s) := by
  have hbp : BASE_PAGE_SIZE = 4096 := rfl
  have hsz : f.get_size = f.contents.length := get_size_eq_flatten f hinv
  have hcl : f.contents.length = f.mcache.flatten.length := rfl
  have hbnB : (s / BASE_PAGE_SIZE) * BASE_PAGE_SIZE ≤ s := by rw [hbp]; omega
  have hsfl : s ≤ f.mcache.flatten.length := by
    rw [hsz, hcl] at he; omega
  have hefl : e ≤ f.mcache.flatten.length := by rw [hsz, hcl] at he; omega
  have htake : (f.mcache.take (s / BASE_PAGE_SIZE)).flatten.length
      = (s / BASE_PAGE_SIZE) * BASE_PAGE_SIZE :=
    chunked_take_flatten_length f.mcache (s / BASE_PAGE_SIZE) hinv
      (le_trans hbnB hsfl)
  have hsplit : f.mcache.flatten =
      (f.mcache.take (s / BASE_PAGE_SIZE)).flatten
        ++ (f.mcache.drop (s / BASE_PAGE_SIZE)).flatten := by
    conv_lhs => rw [← List.take_append_drop (s / BASE_PAGE_SIZE) f.mcache]
    rw [List.flatten_append]
  have hdroplen : (f.mcache.drop (s / BASE_PAGE_SIZE)).flatten.length
      = f.mcache.flatten.length - (s / BASE_PAGE_SIZE) * BASE_PAGE_SIZE := by
    have hc := congrArg List.length hsplit
    rw [List.length_append, htake] at hc
    omega
  have hH1 : (s - (s / BASE_PAGE_SIZE) * BASE_PAGE_SIZE) + (e - s)
      ≤ (f.mcache.drop (s / BASE_PAGE_SIZE)).flatten.length := by
    rw [hdroplen]; omega
  have hH2 : s - (s / BASE_PAGE_SIZE) * BASE_PAGE_SIZE
      ≤ ((f.mcache.drop (s / BASE_PAGE_SIZE)).headD []).length :=
    chunked_head_drop f.mcache s hinv hsfl
  have hcontent : ((f.mcache.drop (s / BASE_PAGE_SIZE)).flatten.drop
      (s - (s / BASE_PAGE_SIZE) * BASE_PAGE_SIZE)) = f.contents.drop s := by
    show _ = f.mcache.flatten.drop s
    conv_rhs => rw [hsplit]
    rw [List.drop_append_eq_append_drop, htake]
    rw [show List.drop s (List.take (s / BASE_PAGE_SIZE) f.mcache).flatten = []
        from List.drop_eq_nil_of_le (by rw [htake]; exact hbnB)]
    rw [List.nil_append]
  have hlen : ((f.contents.drop s).take (e - s)).length = e - s := by
    rw [List.length_take, List.length_drop]
    rw [hcl]
    omega
  have hnlt : ¬ (dst.length < ((f.contents.drop s).take (e - s)).length) := by
    rw [hlen]; omega
  simp only [File.read_file, offset_to_buffernum]
  rw [readLoop_spec (f.mcache.drop (s / BASE_PAGE_SIZE))
      (s - (s / BASE_PAGE_SIZE) * BASE_PAGE_SIZE) (e - s) hH1 hH2]
  simp only [hcontent, hlen]
  rw [if_neg (show ¬ dst.length < e - s by omega)]

theorem file_read_file_correct_witness :
    (pageChunksOk ({ mcache := [[1, 2, 3]], modes := 448 } : File).mcache = true ∧
      (1 : Nat) ≤ 3 ∧ 3 ≤ ({ mcache := [[1, 2, 3]], modes := 448 } : File).get_size ∧
      3 - 1 ≤ ([0, 0, 0] : List Nat).length) ∧
    ({ mcache := [[1, 2, 3]], modes := 448 } : File).read_file [0, 0, 0] 1 3 =
      some ((({ mcache := [[1, 2, 3]], modes := 448 } : File).contents.drop 1).take (3 - 1)
              ++ ([0, 0, 0] : List Nat).drop (3 - 1), 3 - 1) :=
  ⟨⟨by decide, by decide, by decide, by decide⟩,
   file_read_file_correct { mcache := [[1, 2, 3]], modes := 448 } [0, 0, 0] 1 3
     (by decide) (by decide) (by decide) (by decide)⟩

theorem getLastD_irrel (a : List Nat) (t : List (List Nat)) (d d' : List Nat) :
    (a :: t).getLastD d = (a :: t).getLastD d' := rfl

theorem updateLast_length (g : List Nat → List Nat) :
    ∀ l : List (List Nat), (updateLast g l).length = l.length
  | [] => rfl
  | [b] => rfl
  | b :: c :: rest => by
    show (b :: updateLast g (c :: rest)).length = (b :: c :: rest).length
    simp [updateLast_length g (c :: rest)]

theorem updateLast_chunksOk (g : List Nat → List Nat) :
    ∀ l : List (List Nat), pageChunksOk l = true →
      0 < (g (l.getLastD [])).length → (g (l.getLastD [])).length ≤ BASE_PAGE_SIZE →
      pageChunksOk (updateLast g l) = true
  | [], _, _, _ => rfl
  | [b], h, h1, h2 => by
    show pageChunksOk [g b] = true
    simp only [pageChunksOk, decide_eq_true_eq]
    exact ⟨h1, h2⟩
  | b :: c :: rest, h, h1, h2 => by
    rcases chunksOk_cons_cons b c rest h with ⟨hb, hrest⟩
    have ih := updateLast_chunksOk g (c :: rest) hrest h1 h2
    show pageChunksOk (b :: updateLast g (c :: rest)) = true
    cases rest with
    | nil =>
      show pageChunksOk (b :: [g c]) = true
      simp only [pageChunksOk, Bool.and_eq_true, beq_iff_eq]
      exact ⟨hb, by simpa [pageChunksOk] using ih⟩
    | cons d rest' =>
      show pageChunksOk (b :: c :: updateLast g (d :: rest')) = true
      simp only [pageChunksOk, Bool.and_eq_true, beq_iff_eq]
      refine ⟨hb, ?_⟩
      simpa [updateLast] using ih

theorem allFull_chunksOk :
    ∀ l : List (List Nat), (∀ b ∈ l, b.length = BASE_PAGE_SIZE) →
      pageChunksOk l = true
  | [], _ => rfl
  | [b], h => by
    have hb := h b (by simp)
    simp only [pageChunksOk, decide_eq_true_eq]
    rw [hb]
    exact ⟨by decide, le_refl _⟩
  | b :: c :: rest, h => by
    have hb := h b (by simp)
    have ih := allFull_chunksOk (c :: rest) (fun x hx => h x (List.mem_cons_of_mem _ hx))
    simp only [pageChunksOk, Bool.and_eq_true, beq_iff_eq]
    exact ⟨hb, ih⟩

theorem chunksOk_append (l1 l2 : List (List Nat))
    (h1 : ∀ b ∈ l1, b.length = BASE_PAGE_SIZE)
    (h2 : pageChunksOk l2 = true) (h3 : l2 ≠ []) :
    pageChunksOk (l1 ++ l2) = true := by
  induction l1 with
  | nil => simpa using h2
  | cons b rest ih =>
    have hb := h1 b (by simp)
    have ihh := ih (fun x hx => h1 x (List.mem_cons_of_mem _ hx))
    have hne : rest ++ l2 ≠ [] := by
      intro hc
      rcases List.append_eq_nil.mp hc with ⟨_, h2n⟩
      exact h3 h2n
    obtain ⟨x, xs, hxx⟩ := List.exists_cons_of_ne_nil hne
    show pageChunksOk (b :: (rest ++ l2)) = true
    rw [hxx]
    simp only [pageChunksOk, Bool.and_eq_true, beq_iff_eq]
    exact ⟨hb, by rw [← hxx]; exact ihh⟩

theorem chunked_dropLast_full :
    ∀ l : List (List Nat), pageChunksOk l = true →
      ∀ b ∈ l.dropLast, b.length = BASE_PAGE_SIZE
  | [], _ => by intro b hb; cases hb
  | [b], _ => by intro x hx; cases hx
  | b :: c :: rest, h => by
    rcases chunksOk_cons_cons b c rest h with ⟨hb, hrest⟩
    intro x hx
    rw [List.dropLast_cons₂] at hx
    rcases List.mem_cons.mp hx with hx1 | hx1
    · subst hx1; exact hb
    · exact chunked_dropLast_full (c :: rest) hrest x hx1

theorem chunked_last_bounds :
    ∀ l : List (List Nat), pageChunksOk l = true → l ≠ [] →
      0 < (l.getLastD []).length ∧ (l.getLastD []).length ≤ BASE_PAGE_SIZE
  | [], _, hne => absurd rfl hne
  | [b], h, _ => by
    rcases chunksOk_single b h with ⟨h1, h2⟩
    exact ⟨h1, h2⟩
  | b :: c :: rest, h, _ => by
    rcases chunksOk_cons_cons b c rest h with ⟨hb, hrest⟩
    have ih := chunked_last_bounds (c :: rest) hrest (by simp)
    simpa using ih

theorem chunked_flatten_len :
    ∀ l : List (List Nat), pageChunksOk l = true → l ≠ [] →
      l.flatten.length = (l.length - 1) * BASE_PAGE_SIZE + (l.getLastD []).length
  | [], _, hne => absurd rfl hne
  | [b], h, _ => by simp
  | b :: c :: rest, h, _ => by
    rcases chunksOk_cons_cons b c rest h with ⟨hb, hrest⟩
    have ih := chunked_flatten_len (c :: rest) hrest (by simp)
    show (b ++ (c :: rest).flatten).length = _
    rw [List.length_append, hb, ih]
    have hl : (b :: c :: rest).length - 1 = ((c :: rest).length - 1) + 1 := by
      simp
    rw [show (b :: c :: rest).getLastD [] = (c :: rest).getLastD [] from rfl, hl]
    ring

theorem ceil_le_mul (m : Nat) : m ≤ ceil m BASE_PAGE_SIZE * BASE_PAGE_SIZE := by
  simp only [ceil, BASE_PAGE_SIZE]
  split <;> omega

theorem ceil_lt_mul (m : Nat) (h : 0 < m) :
    (ceil m BASE_PAGE_SIZE - 1) * BASE_PAGE_SIZE < m := by
  simp only [ceil, BASE_PAGE_SIZE]
  split <;> omega

theorem ceil_pos (m : Nat) (h : 0 < m) : 0 < ceil m BASE_PAGE_SIZE := by
  simp only [ceil, BASE_PAGE_SIZE]
  split <;> omega

theorem ceil_le_of_le (m k : Nat) (h : m ≤ k * BASE_PAGE_SIZE) :
    ceil m BASE_PAGE_SIZE ≤ k := by
  simp only [ceil, BASE_PAGE_SIZE] at *
  split <;> omega

theorem chunksOk_take :
    ∀ (l : List (List Nat)) (n : Nat), pageChunksOk l = true →
      pageChunksOk (l.take n) = true
  | [], n, _ => by simp [pageChunksOk]
  | [b], n, h => by
    cases n with
    | zero => rfl
    | succ m => simpa using h
  | b :: c :: rest, n, h => by
    rcases chunksOk_cons_cons b c rest h with ⟨hb, hrest⟩
    cases n with
    | zero => rfl
    | succ m =>
      cases m with
      | zero =>
        show pageChunksOk [b] = true
        simp only [pageChunksOk, decide_eq_true_eq]
        rw [hb]
        exact ⟨by decide, le_refl _⟩
      | succ m' =>
        have ih := chunksOk_take (c :: rest) (m' + 1) hrest
        show pageChunksOk (b :: (c :: rest).take (m' + 1)) = true
        have hne : (c :: rest).take (m' + 1) ≠ [] := by simp
        obtain ⟨x, xs, hxx⟩ := List.exists_cons_of_ne_nil hne
        rw [hxx]
        simp only [pageChunksOk, Bool.and_eq_true, beq_iff_eq]
        exact ⟨hb, by rw [← hxx]; exact ih⟩

theorem chunked_allFull_of_last_full :
    ∀ l : List (List Nat), pageChunksOk l = true →
      (l.getLastD []).length = BASE_PAGE_SIZE →
      ∀ b ∈ l, b.length = BASE_PAGE_SIZE
  | [], _, _ => by intro b hb; cases hb
  | [b], h, hl => by
    intro x hx
    simp at hx
    subst hx
    exact hl
  | b :: c :: rest, h, hl => by
    rcases chunksOk_cons_cons b c rest h with ⟨hb, hrest⟩
    intro x hx
    rcases List.mem_cons.mp hx with hx1 | hx1
    · subst hx1; exact hb
    · exact chunked_allFull_of_last_full (c :: rest) hrest hl x hx1

theorem allFull_flatten_len (l : List (List Nat))
    (h : ∀ b ∈ l, b.length = BASE_PAGE_SIZE) :
    l.flatten.length = l.length * BASE_PAGE_SIZE := by
  induction l with
  | nil => simp
  | cons b rest ih =>
    have hb := h b (by simp)
    have ihh := ih (fun x hx => h x (List.mem_cons_of_mem _ hx))
    simp only [List.flatten_cons, List.length_append, hb, ihh, List.length_cons]
    ring

theorem padLast_allFull :
    ∀ l : List (List Nat), pageChunksOk l = true →
      ∀ b ∈ updateLast (fun x => resizeZero x BASE_PAGE_SIZE) l,
        b.length = BASE_PAGE_SIZE
  | [], _ => by intro b hb; cases hb
  | [b], h => by
    intro x hx
    simp only [updateLast] at hx
    simp at hx
    subst hx
    exact resizeZero_length _ _
  | b :: c :: rest, h => by
    rcases chunksOk_cons_cons b c rest h with ⟨hb, hrest⟩
    intro x hx
    have hshape : updateLast (fun x => resizeZero x BASE_PAGE_SIZE) (b :: c :: rest)
        = b :: updateLast (fun x => resizeZero x BASE_PAGE_SIZE) (c :: rest) := rfl
    rw [hshape] at hx
    rcases List.mem_cons.mp hx with hx1 | hx1
    · subst hx1; exact hb
    · exact padLast_allFull (c :: rest) hrest x hx1

theorem drop_length_sub_one :
    ∀ l : List (List Nat), l ≠ [] → l.drop (l.length - 1) = [l.getLastD []]
  | [], hne => absurd rfl hne
  | [b], _ => rfl
  | b :: c :: rest, _ => by
    have ih := drop_length_sub_one (c :: rest) (by simp)
    show (b :: c :: rest).drop ((b :: c :: rest).length - 1) = _
    have hl : (b :: c :: rest).length - 1 = ((c :: rest).length - 1) + 1 := by simp
    rw [hl, List.drop_succ_cons]
    exact ih

theorem chunksOf_nil : chunksOf [] = [] := by
  unfold chunksOf
  simp

theorem chunksOf_cons (l : List Nat) (h : l ≠ []) :
    chunksOf l = l.take BASE_PAGE_SIZE :: chunksOf (l.drop BASE_PAGE_SIZE) := by
  conv_lhs => rw [chunksOf]
  simp [h]

theorem chunksOf_ne_nil (l : List Nat) (h : l ≠ []) : chunksOf l ≠ [] := by
  rw [chunksOf_cons l h]
  simp

theorem chunksOf_of_short (l : List Nat) (h0 : l ≠ []) (hle : l.length ≤ BASE_PAGE_SIZE) :
    chunksOf l = [l] := by
  rw [chunksOf_cons l h0, List.drop_eq_nil_of_le hle, chunksOf_nil,
    List.take_of_length_le hle]

theorem chunksOf_chunksOk_aux :
    ∀ (n : Nat) (l : List Nat), l.length ≤ n → pageChunksOk (chunksOf l) = true := by
  intro n
  induction n with
  | zero =>
    intro l hl
    have hl0 : l = [] := List.eq_nil_of_length_eq_zero (by omega)
    subst hl0
    rw [chunksOf_nil]
    rfl
  | succ n ih =>
    intro l hl
    by_cases hnil : l = []
    · subst hnil
      rw [chunksOf_nil]
      rfl
    · rw [chunksOf_cons l hnil]
      have hpos : 0 < l.length := List.length_pos.mpr hnil
      by_cases hlen : l.length ≤ BASE_PAGE_SIZE
      · rw [List.drop_eq_nil_of_le hlen, chunksOf_nil]
        simp only [pageChunksOk, decide_eq_true_eq, List.length_take]
        simp only [BASE_PAGE_SIZE] at *
        omega
      · have hdne : l.drop BASE_PAGE_SIZE ≠ [] := by
          intro hc
          have hcc := congrArg List.length hc
          simp only [List.length_drop, List.length_nil, BASE_PAGE_SIZE] at hcc hlen
          omega
        have ihh := ih (l.drop BASE_PAGE_SIZE)
          (by simp only [List.length_drop, BASE_PAGE_SIZE] at *; omega)
        obtain ⟨x, xs, hxx⟩ := List.exists_cons_of_ne_nil (chunksOf_ne_nil _ hdne)
        rw [hxx]
        simp only [pageChunksOk, Bool.and_eq_true, beq_iff_eq]
        constructor
        · rw [List.length_take]
          simp only [BASE_PAGE_SIZE] at *
          omega
        · rw [← hxx]
          exact ihh

theorem chunksOf_chunksOk (l : List Nat) : pageChunksOk (chunksOf l) = true :=
  chunksOf_chunksOk_aux l.length l (le_refl _)

theorem writeLoop_src_nil (bufs : List (List Nat)) : writeLoop bufs [] = some bufs := by
  cases bufs <;> rfl

theorem writeLoop_single (b : List Nat) (src : List Nat) (h0 : 0 < src.length)
    (hle : src.length ≤ BASE_PAGE_SIZE - b.length) :
    writeLoop [b] src = some [b ++ src] := by
  simp only [writeLoop]
  rw [if_neg (by omega)]
  rw [Nat.min_eq_right hle]
  rw [List.drop_length]
  simp [List.take_of_length_le (le_refl src.length)]

theorem writeLoop_empties_aux :
    ∀ (n : Nat) (src : List Nat), src.length ≤ n → 0 < src.length →
      writeLoop (List.replicate (ceil src.length BASE_PAGE_SIZE) ([] : List Nat)) src
        = some (chunksOf src) := by
  intro n
  induction n with
  | zero => intro src hl h0; omega
  | succ n ih =>
    intro src hl h0
    have hnil : src ≠ [] := by
      intro hc; subst hc; simp at h0
    by_cases hle : src.length ≤ BASE_PAGE_SIZE
    · have hc1 : ceil src.length BASE_PAGE_SIZE = 1 := by
        simp only [ceil, BASE_PAGE_SIZE] at *
        split <;> omega
      rw [hc1]
      show writeLoop [[]] src = _
      simp only [writeLoop]
      rw [if_neg (by omega)]
      rw [show min (BASE_PAGE_SIZE - List.length ([] : List Nat)) src.length
          = src.length from by
        simp only [List.length_nil, Nat.sub_zero]
        exact Nat.min_eq_right hle]
      rw [List.drop_length]
      simp only [List.nil_append, List.take_of_length_le (le_refl src.length)]
      rw [chunksOf_of_short src hnil hle]
      rfl
    · have hgt : BASE_PAGE_SIZE < src.length := by omega
      have hcs : ceil src.length BASE_PAGE_SIZE
          = ceil (src.length - BASE_PAGE_SIZE) BASE_PAGE_SIZE + 1 := by
        simp only [ceil, BASE_PAGE_SIZE] at *
        split <;> split <;> omega
      rw [hcs, List.replicate_succ]
      have ihh := ih (src.drop BASE_PAGE_SIZE)
        (by rw [List.length_drop]; simp only [BASE_PAGE_SIZE] at *; omega)
        (by rw [List.length_drop]; omega)
      rw [List.length_drop] at ihh
      generalize hM : ceil (src.length - BASE_PAGE_SIZE) BASE_PAGE_SIZE = M at ihh ⊢
      simp only [writeLoop]
      rw [if_neg (by omega)]
      rw [show min (BASE_PAGE_SIZE - List.length ([] : List Nat)) src.length
          = BASE_PAGE_SIZE from by
        simp only [List.length_nil, Nat.sub_zero]
        exact Nat.min_eq_left (le_of_lt hgt)]
      rw [ihh]
      rw [chunksOf_cons src hnil]
      rfl

theorem writeLoop_empties (src : List Nat) (h0 : 0 < src.length) :
    writeLoop (List.replicate (ceil src.length BASE_PAGE_SIZE) ([] : List Nat)) src
      = some (chunksOf src) :=
  writeLoop_empties_aux src.length src (le_refl _) h0

theorem writeLoop_partial (b src : List Nat) (hb : b.length < BASE_PAGE_SIZE)
    (hgt : BASE_PAGE_SIZE - b.length < src.length) :
    writeLoop
        (b :: List.replicate
          (ceil (src.length - (BASE_PAGE_SIZE - b.length)) BASE_PAGE_SIZE) ([] : List Nat))
        src
      = some ((b ++ src.take (BASE_PAGE_SIZE - b.length))
          :: chunksOf (src.drop (BASE_PAGE_SIZE - b.length))) := by
  have ihh := writeLoop_empties (src.drop (BASE_PAGE_SIZE - b.length))
    (by rw [List.length_drop]; omega)
  rw [List.length_drop] at ihh
  generalize hM : ceil (src.length - (BASE_PAGE_SIZE - b.length)) BASE_PAGE_SIZE = M
    at ihh ⊢
  simp only [writeLoop]
  rw [if_neg (by omega)]
  rw [show min (BASE_PAGE_SIZE - b.length) src.length = BASE_PAGE_SIZE - b.length
      from Nat.min_eq_left (le_of_lt hgt)]
  rw [ihh]

theorem sumUntilEmpty_append_empty (l : List (List Nat)) (rest : List (List Nat))
    (h : ∀ b ∈ l, 0 < b.length) :
    sumUntilEmptyBuffer (l ++ ([] : List Nat) :: rest) = l.flatten.length := by
  induction l with
  | nil => rfl
  | cons b l' ih =>
    have hb := h b (by simp)
    show sumUntilEmptyBuffer (b :: (l' ++ [] :: rest)) = _
    unfold sumUntilEmptyBuffer
    rw [if_neg (by omega)]
    rw [ih (fun x hx => h x (List.mem_cons_of_mem _ hx))]
    simp

theorem get_size_append_empties (l : List (List Nat)) (j : Nat) (m : Nat)
    (h : pageChunksOk l = true) :
    File.get_size { mcache := l ++ List.replicate (j + 1) ([] : List Nat), modes := m }
      = l.flatten.length := by
  have hpos := chunksOk_all_pos l h
  rw [List.replicate_succ]
  cases l with
  | nil =>
    cases j with
    | zero => rfl
    | succ j' =>
      show File.get_size { mcache := [] :: List.replicate (j' + 1) [], modes := m } = 0
      rw [List.replicate_succ]
      rfl
  | cons x xs =>
    have hne : xs ++ ([] : List Nat) :: List.replicate j [] ≠ [] := by simp
    obtain ⟨y, t, hyt⟩ := List.exists_cons_of_ne_nil hne
    show File.get_size { mcache := x :: (xs ++ [] :: List.replicate j []), modes := m } = _
    rw [hyt]
    show sumUntilEmptyBuffer (x :: y :: t) = _
    rw [← hyt]
    show sumUntilEmptyBuffer ((x :: xs) ++ [] :: List.replicate j []) = _
    exact sumUntilEmpty_append_empty (x :: xs) _ hpos


theorem increase_preserves (f : File) (new_len : Nat)
    (h : pageChunksOk f.mcache = true) (hlt : f.get_size < new_len) :
    pageChunksOk (f.increase_file_size f.get_size new_len).mcache = true := by
  cases hml : f.mcache.getLast? with
  | none =>
    have hmnil : f.mcache = [] := by
      cases hmc : f.mcache with
      | nil => rfl
      | cons a t => rw [hmc] at hml; simp at hml
    have hz : f.get_size = 0 := by
      show File.get_size f = 0
      unfold File.get_size
      rw [hmnil]
    simp only [File.increase_file_size, hmnil, hz, List.getLast?_nil]
    rw [if_neg (by omega)]
    rw [if_neg (by simp : ¬(([] : List (List Nat)).length > 0))]
    have hgz : File.get_size { mcache := ([] : List (List Nat)), modes := f.modes }
        = 0 := rfl
    rw [hgz]
    have hpos : 0 < new_len - 0 - 0 := by omega
    have h1 := ceil_le_mul (new_len - 0 - 0)
    have h2 := ceil_lt_mul (new_len - 0 - 0) hpos
    have h3 := ceil_pos (new_len - 0 - 0) hpos
    generalize hnb : ceil (new_len - 0 - 0) BASE_PAGE_SIZE = nb at h1 h2 h3 ⊢
    simp only [BASE_PAGE_SIZE] at h1 h2 h3
    split
    · rw [List.nil_append]
      apply updateLast_chunksOk
      · exact allFull_chunksOk _ (by
          intro b hb
          rw [List.eq_of_mem_replicate hb]
          exact List.length_replicate _ _)
      · simp only [resizeZero_length]
        simp only [BASE_PAGE_SIZE]
        omega
      · simp only [resizeZero_length]
        simp only [BASE_PAGE_SIZE]
        omega
    · rw [List.nil_append]
      exact allFull_chunksOk _ (by
        intro b hb
        rw [List.eq_of_mem_replicate hb]
        exact List.length_replicate _ _)
  | some lastb =>
    have hne : f.mcache ≠ [] := by
      intro hc; rw [hc] at hml; simp at hml
    have hlast : f.mcache.getLastD [] = lastb := by
      rw [List.getLastD_eq_getLast? , hml]; rfl
    obtain ⟨hp, hle⟩ := chunked_last_bounds f.mcache h hne
    rw [hlast] at hp hle
    have hk : 0 < f.mcache.length := List.length_pos.mpr hne
    have hsz : f.get_size = (f.mcache.length - 1) * BASE_PAGE_SIZE + lastb.length := by
      rw [get_size_eq_flatten f h]
      show f.mcache.flatten.length = _
      rw [chunked_flatten_len f.mcache h hne, hlast]
    simp only [File.increase_file_size, hml]
    split
    · rename_i hcond
      apply updateLast_chunksOk _ _ h
      · rw [hlast, resizeZero_length]
        omega
      · rw [hlast, resizeZero_length]
        simp only [BASE_PAGE_SIZE] at hcond hle hsz ⊢
        omega
    · rename_i hcond
      have hM1full := padLast_allFull f.mcache h
      have hM1chunks := allFull_chunksOk _ hM1full
      have hM1len := updateLast_length (fun b => resizeZero b BASE_PAGE_SIZE) f.mcache
      have hM1size :
          File.get_size
              { mcache := updateLast (fun b => resizeZero b BASE_PAGE_SIZE) f.mcache
                modes := f.modes }
            = f.mcache.length * BASE_PAGE_SIZE := by
        rw [get_size_eq_flatten _ hM1chunks]
        show (updateLast (fun b => resizeZero b BASE_PAGE_SIZE)
            f.mcache).flatten.length = _
        rw [allFull_flatten_len _ hM1full, hM1len]
      rw [hM1size]
      have hpos : 0 < new_len - f.get_size - (BASE_PAGE_SIZE - lastb.length) := by
        simp only [BASE_PAGE_SIZE] at hcond hle hsz ⊢
        omega
      have h1 := ceil_le_mul (new_len - f.get_size - (BASE_PAGE_SIZE - lastb.length))
      have h2 := ceil_lt_mul (new_len - f.get_size - (BASE_PAGE_SIZE - lastb.length)) hpos
      have h3 := ceil_pos (new_len - f.get_size - (BASE_PAGE_SIZE - lastb.length)) hpos
      generalize hnb :
        ceil (new_len - f.get_size - (BASE_PAGE_SIZE - lastb.length)) BASE_PAGE_SIZE
          = nb at h1 h2 h3 ⊢
      simp only [BASE_PAGE_SIZE] at h1 h2 h3 hpos hcond hle hsz
      split
      · apply chunksOk_append _ _ hM1full
        · apply updateLast_chunksOk
          · exact allFull_chunksOk _ (by
              intro b hb
              rw [List.eq_of_mem_replicate hb]
              exact List.length_replicate _ _)
          · simp only [resizeZero_length]
            simp only [BASE_PAGE_SIZE]
            omega
          · simp only [resizeZero_length]
            simp only [BASE_PAGE_SIZE]
            omega
        · apply List.ne_nil_of_length_pos
          rw [updateLast_length, List.length_replicate]
          omega
      · apply chunksOk_append _ _ hM1full
        · exact allFull_chunksOk _ (by
            intro b hb
            rw [List.eq_of_mem_replicate hb]
            exact List.length_replicate _ _)
        · apply List.ne_nil_of_length_pos
          rw [List.length_replicate]
          omega

theorem decrease_preserves (f : File) (new_len : Nat)
    (h : pageChunksOk f.mcache = true) :
    pageChunksOk (f.decrease_file_size new_len).mcache = true := by
  simp only [File.decrease_file_size]
  split
  · rename_i hpos
    have hnl : 0 < new_len := by
      by_contra hc
      push_neg at hc
      have hz : new_len = 0 := by omega
      subst hz
      rw [(by decide : ceil 0 BASE_PAGE_SIZE = 0)] at hpos
      simp at hpos
    have h1 := ceil_le_mul new_len
    have h2 := ceil_lt_mul new_len hnl
    have h3 := ceil_pos new_len hnl
    apply updateLast_chunksOk _ _ (chunksOk_take _ _ h)
    · simp only [resizeZero_length]
      generalize ceil new_len BASE_PAGE_SIZE = nb at h1 h2 h3 ⊢
      simp only [BASE_PAGE_SIZE] at h1 h2 h3 ⊢
      split
      · omega
      · omega
    · simp only [resizeZero_length]
      generalize ceil new_len BASE_PAGE_SIZE = nb at h1 h2 h3 ⊢
      simp only [BASE_PAGE_SIZE] at h1 h2 h3 ⊢
      split
      · omega
      · omega
  · exact chunksOk_take _ _ h

theorem resize_preserves (f : File) (new_len : Nat)
    (h : pageChunksOk f.mcache = true) :
    pageChunksOk (f.resize_file new_len).mcache = true := by
  simp only [File.resize_file]
  split
  · exact h
  · split
    · rename_i hne hgt
      exact increase_preserves f new_len h hgt
    · exact decrease_preserves f new_len h

theorem get_size_replicate_nil (j m : Nat) :
    File.get_size { mcache := List.replicate (j + 1) ([] : List Nat), modes := m }
      = 0 := by
  cases j with
  | zero => rfl
  | succ j' =>
    show File.get_size { mcache := List.replicate (j' + 1 + 1) [], modes := m } = 0
    rw [List.replicate_succ, List.replicate_succ]
    rfl

set_option maxHeartbeats 1000000 in
theorem write_preserves (f : File) (src : List Nat) (len : Nat) (off : Int)
    (r : File × Nat) (h : pageChunksOk f.mcache = true)
    (hw : f.write_file src len off = some r) :
    pageChunksOk r.1.mcache = true := by
  simp only [File.write_file] at hw
  split at hw
  · exact Option.noConfusion hw
  · rename_i hlen
    have hg : pageChunksOk
        (if off ≠ -1 then f.resize_file (intToUsize off) else f).mcache = true := by
      split
      · exact resize_preserves f _ h
      · exact h
    generalize hf1 : (if off ≠ -1 then f.resize_file (intToUsize off) else f) = f1
      at hg hw
    have hsrclen : (List.take len src).length = len := by
      rw [List.length_take]
      omega
    split at hw
    · exact Option.noConfusion hw
    · rename_i post heq
      injection hw with hr
      subst hr
      cases hml : f1.mcache.getLast? with
      | none =>
        have hmnil : f1.mcache = [] := by
          cases hmc : f1.mcache with
          | nil => rfl
          | cons a t => rw [hmc] at hml; simp at hml
        simp only [hml] at heq ⊢
        by_cases h0 : len = 0
        · subst h0
          rw [if_neg (by omega)] at heq ⊢
          simp only [hmnil, List.take_zero, List.drop_nil] at heq ⊢
          rw [writeLoop_src_nil] at heq
          injection heq with hpost
          subst hpost
          simp [List.take_nil, pageChunksOk]
        · rw [if_pos (by omega)] at heq ⊢
          simp only [hmnil, List.nil_append, Nat.sub_zero] at heq ⊢
          obtain ⟨j, hj⟩ : ∃ j, ceil len BASE_PAGE_SIZE = j + 1 := by
            have := ceil_pos len (by omega)
            exact ⟨ceil len BASE_PAGE_SIZE - 1, by omega⟩
          rw [hj] at heq ⊢
          rw [get_size_replicate_nil j f1.modes] at heq ⊢
          simp only [offset_to_buffernum, Nat.zero_div, List.drop_zero,
            List.take_zero] at heq ⊢
          have hev := writeLoop_empties (List.take len src) (by rw [hsrclen]; omega)
          rw [hsrclen, hj] at hev
          rw [hev] at heq
          injection heq with hpost
          subst hpost
          rw [List.nil_append]
          exact chunksOf_chunksOk _
      | some lastb =>
        have hne : f1.mcache ≠ [] := by
          intro hc; rw [hc] at hml; simp at hml
        have hlast : f1.mcache.getLastD [] = lastb := by
          rw [List.getLastD_eq_getLast? , hml]; rfl
        obtain ⟨hp, hle⟩ := chunked_last_bounds f1.mcache hg hne
        rw [hlast] at hp hle
        have hk : 0 < f1.mcache.length := List.length_pos.mpr hne
        have hfl : f1.mcache.flatten.length
            = (f1.mcache.length - 1) * BASE_PAGE_SIZE + lastb.length :=
          hlast ▸ chunked_flatten_len f1.mcache hg hne
        simp only [hml] at heq ⊢
        by_cases hfr : len > BASE_PAGE_SIZE - lastb.length
        · rw [if_pos hfr] at heq ⊢
          obtain ⟨j, hj⟩ : ∃ j,
              ceil (len - (BASE_PAGE_SIZE - lastb.length)) BASE_PAGE_SIZE = j + 1 := by
            have := ceil_pos (len - (BASE_PAGE_SIZE - lastb.length)) (by omega)
            exact ⟨ceil (len - (BASE_PAGE_SIZE - lastb.length)) BASE_PAGE_SIZE - 1,
              by omega⟩
          rw [hj] at heq ⊢
          rw [get_size_append_empties f1.mcache j f1.modes hg] at heq ⊢
          rw [hfl] at heq ⊢
          simp only [offset_to_buffernum] at heq ⊢
          by_cases hfull : lastb.length = BASE_PAGE_SIZE
          · have hbn : ((f1.mcache.length - 1) * BASE_PAGE_SIZE + lastb.length)
                / BASE_PAGE_SIZE = f1.mcache.length := by
              rw [hfull]
              simp only [BASE_PAGE_SIZE]
              omega
            rw [hbn] at heq ⊢
            rw [List.drop_left] at heq
            rw [List.take_left]
            have hev := writeLoop_empties (List.take len src) (by rw [hsrclen]; omega)
            rw [hsrclen] at hev
            have hj' : ceil len BASE_PAGE_SIZE = j + 1 := by
              rw [← hj, hfull, Nat.sub_self, Nat.sub_zero]
            rw [hj'] at hev
            rw [hev] at heq
            injection heq with hpost
            subst hpost
            apply chunksOk_append
            · exact chunked_allFull_of_last_full f1.mcache hg (hlast ▸ hfull)
            · exact chunksOf_chunksOk _
            · exact chunksOf_ne_nil _
                (List.ne_nil_of_length_pos (by rw [hsrclen]; omega))
          · have hlb : lastb.length < BASE_PAGE_SIZE := by omega
            have hbn : ((f1.mcache.length - 1) * BASE_PAGE_SIZE + lastb.length)
                / BASE_PAGE_SIZE = f1.mcache.length - 1 := by
              simp only [BASE_PAGE_SIZE] at hp hle hlb ⊢
              omega
            rw [hbn] at heq ⊢
            rw [List.drop_append_eq_append_drop, drop_length_sub_one f1.mcache hne,
              hlast, (show f1.mcache.length - 1 - f1.mcache.length = 0 by omega),
              List.drop_zero, List.singleton_append] at heq
            have hev := writeLoop_partial lastb (List.take len src) hlb
              (by rw [hsrclen]; omega)
            rw [hsrclen, hj] at hev
            rw [hev] at heq
            injection heq with hpost
            subst hpost
            rw [List.take_append_eq_append_take,
              (show f1.mcache.length - 1 - f1.mcache.length = 0 by omega),
              List.take_zero, List.append_nil]
            apply chunksOk_append
            · intro b hb
              apply chunked_dropLast_full f1.mcache hg
              rwa [List.dropLast_eq_take]
            · apply chunksOk_append [lastb ++
                List.take (BASE_PAGE_SIZE - lastb.length) (List.take len src)]
                (chunksOf (List.drop (BASE_PAGE_SIZE - lastb.length)
                  (List.take len src)))
              · intro b hb
                simp only [List.mem_singleton] at hb
                subst hb
                rw [List.length_append, List.length_take, hsrclen,
                  Nat.min_eq_left (by omega)]
                omega
              · exact chunksOf_chunksOk _
              · apply chunksOf_ne_nil
                apply List.ne_nil_of_length_pos
                rw [List.length_drop, hsrclen]
                omega
            · simp
        · rw [if_neg hfr] at heq ⊢
          by_cases h0 : len = 0
          · subst h0
            simp only [List.take_zero] at heq
            rw [writeLoop_src_nil] at heq
            injection heq with hpost
            subst hpost
            rw [List.take_append_drop]
            exact hg
          · have hgs : File.get_size { mcache := f1.mcache, modes := f1.modes }
                = (f1.mcache.length - 1) * BASE_PAGE_SIZE + lastb.length := by
              rw [get_size_eq_flatten _ hg]
              exact hfl
            rw [hgs] at heq ⊢
            simp only [offset_to_buffernum] at heq ⊢
            have hbn : ((f1.mcache.length - 1) * BASE_PAGE_SIZE + lastb.length)
                / BASE_PAGE_SIZE = f1.mcache.length - 1 := by
              simp only [BASE_PAGE_SIZE] at hp hle hfr h0 ⊢
              omega
            rw [hbn] at heq ⊢
            rw [drop_length_sub_one f1.mcache hne, hlast] at heq
            have hev := writeLoop_single lastb (List.take len src)
              (by rw [hsrclen]; omega) (by rw [hsrclen]; omega)
            rw [hev] at heq
            injection heq with hpost
            subst hpost
            apply chunksOk_append
            · intro b hb
              apply chunked_dropLast_full f1.mcache hg
              rwa [List.dropLast_eq_take]
            · simp only [pageChunksOk, decide_eq_true_eq, List.length_append, hsrclen]
              simp only [BASE_PAGE_SIZE] at hle hfr ⊢
              omega
            · simp

/-- C7: every `File` reachable from `File::new` by any sequence of
`resize_file` and (non-panicking) `write_file` calls satisfies the buffer-list
invariant: every buffer except the last holds exactly `BASE_PAGE_SIZE` bytes,
the last buffer holds at most `BASE_PAGE_SIZE` bytes, a file of logical
length 0 has an empty buffer list, and `get_size` equals the total number of
bytes across all buffers. -/
theorem file_buffer_invariant (f : File) (hf : FileReachable f) :
    (∀ b ∈ f.mcache.dropLast, b.length = BASE_PAGE_SIZE) ∧
    (f.mcache.getLastD []).length ≤ BASE_PAGE_SIZE ∧
    (f.get_size = 0 → f.mcache = []) ∧
    f.get_size = f.contents.length := by
  have hc : pageChunksOk f.mcache = true := by
    induction hf with
    | new modes => rfl
    | resize g n hg ih => exact resize_preserves g n ih
    | write g s l o rr hg hw ih => exact write_preserves g s l o rr ih hw
  refine ⟨chunked_dropLast_full f.mcache hc, ?_, ?_, get_size_eq_flatten f hc⟩
  · by_cases hne : f.mcache = []
    · rw [hne]
      simp [BASE_PAGE_SIZE]
    · exact (chunked_last_bounds f.mcache hc hne).2
  · intro hz
    by_cases hne : f.mcache = []
    · exact hne
    · exfalso
      obtain ⟨hp, _⟩ := chunked_last_bounds f.mcache hc hne
      have ht := get_size_eq_flatten f hc
      simp only [File.contents] at ht
      rw [chunked_flatten_len f.mcache hc hne] at ht
      omega

theorem file_buffer_invariant_witness :
    (∀ b ∈ ({ mcache := [[5, 6]], modes := 448 } : File).mcache.dropLast,
        b.length = BASE_PAGE_SIZE) ∧
      (({ mcache := [[5, 6]], modes := 448 } : File).mcache.getLastD []).length
          ≤ BASE_PAGE_SIZE ∧
      (({ mcache := [[5, 6]], modes := 448 } : File).get_size = 0 →
        ({ mcache := [[5, 6]], modes := 448 } : File).mcache = []) ∧
      ({ mcache := [[5, 6]], modes := 448 } : File).get_size
        = ({ mcache := [[5, 6]], modes := 448 } : File).contents.length :=
  file_buffer_invariant { mcache := [[5, 6]], modes := 448 }
    (FileReachable.write (File.new 448) [5, 6] 2 (-1)
      ({ mcache := [[5, 6]], modes := 448 }, 2) (FileReachable.new 448) (by decide))
